import Mathlib

/-!
Verification of the VanillaWire reactive core (`src/core/state.js`) against its
natural-language specification.

The development is a shallow embedding of the reactive engine: JS values with
object identity become an inductive `JSVal` over an explicit heap, the proxy
`get`/`set` traps become `trapGet`/`trapSet`, the module-level globals
(`STATE_TRACKER`, `NOTIFICATION_QUEUE`, `NOTIFICATION_FLUSH_PENDING`) become
fields of an explicit `RState`, and the microtask flush becomes an explicit
`flushCallback` step.  Every definition mirrors a concrete function of
`state.js`; the doc comment of each definition names the lines it embeds.
-/

namespace VanillaWire

/-- Effect (computation) identifier; stands for the identity of a `wrappedFn`
closure created by `effect` (state.js lines 294-306). -/
abbrev EffId := Nat

/-- Property keys.  `state.js` keys its tracker by the property name; array
indices appear as their decimal string (`i.toString()`, e.g. lines 33-34). -/
abbrev Key := String

/-- JS values relevant to the reactive core.  `obj a` is a reference to the raw
object stored at heap address `a` (identity = address); `proxy p` is a Proxy
object with identity `p` (each `new Proxy(target, …)` in `createProxy`,
line 208, allocates a fresh one). -/
inductive JSVal where
  | prim : Int → JSVal
  | undefined : JSVal
  | obj : Nat → JSVal
  | proxy : Nat → JSVal
deriving DecidableEq, Repr

/-- Heap objects: plain records or arrays (arrays expose a `length` key and
decimal-string index keys, as the proxy sees them). -/
inductive HObj where
  | record : List (Key × JSVal) → HObj
  | arr : List JSVal → HObj
deriving DecidableEq, Repr

/-- Field read on a record (`Reflect.get` on a plain object, state.js
line 214); missing fields give `undefined`. -/
def recGet : List (Key × JSVal) → Key → JSVal
  | [], _ => .undefined
  | p :: rest, k => if p.1 = k then p.2 else recGet rest k

/-- Field write on a record (`Reflect.set`, line 248): replace in place, or
append a new field. -/
def recSet : List (Key × JSVal) → Key → JSVal → List (Key × JSVal)
  | [], k, v => [(k, v)]
  | p :: rest, k, v => if p.1 = k then (k, v) :: rest else p :: recSet rest k v

/-- Decimal digit value of a character, if any. -/
def digitVal? (c : Char) : Option Nat :=
  if c = '0' then some 0 else if c = '1' then some 1 else if c = '2' then some 2
  else if c = '3' then some 3 else if c = '4' then some 4 else if c = '5' then some 5
  else if c = '6' then some 6 else if c = '7' then some 7 else if c = '8' then some 8
  else if c = '9' then some 9 else none

/-- Accumulate decimal digits; fails on any non-digit. -/
def parseDigits : List Char → Nat → Option Nat
  | [], acc => some acc
  | c :: cs, acc =>
      match digitVal? c with
      | some d => parseDigits cs (acc * 10 + d)
      | none => none

/-- Interpret a property key as an array index (JS array index keys are their
decimal strings). -/
def keyIndex? (k : Key) : Option Nat :=
  match k.data with
  | [] => none
  | cs => parseDigits cs 0

/-- The decimal digit character for `d < 10`. -/
def digitChar (d : Nat) : Char :=
  if d = 0 then '0' else if d = 1 then '1' else if d = 2 then '2'
  else if d = 3 then '3' else if d = 4 then '4' else if d = 5 then '5'
  else if d = 6 then '6' else if d = 7 then '7' else if d = 8 then '8' else '9'

/-- Digits of `n`, most significant first, accumulated onto `acc`; the first
argument is recursion fuel (`n + 1` suffices). -/
def natToKeyAux : Nat → Nat → List Char → List Char
  | 0, _, acc => acc
  | fuel + 1, n, acc =>
      let d := digitChar (n % 10)
      if n < 10 then d :: acc else natToKeyAux fuel (n / 10) (d :: acc)

/-- The decimal string `i.toString()` for an array index (state.js line 34 and friends). -/
def natToKey (n : Nat) : Key := ⟨natToKeyAux (n + 1) n []⟩

/-- Property read on a heap object; for arrays, `length` and decimal index keys
behave as in JS. -/
def hobjGet : HObj → Key → JSVal
  | .record fs, k => recGet fs k
  | .arr l, k =>
      if k = "length" then .prim (l.length : Int)
      else
        match keyIndex? k with
        | some i => (l.getD i .undefined)
        | none => .undefined

/-- Property write on a heap object.  Array writes other than in-range index
writes are not exercised by any scenario and leave the array unchanged. -/
def hobjSet : HObj → Key → JSVal → HObj
  | .record fs, k, v => .record (recSet fs k v)
  | .arr l, k, v =>
      match keyIndex? k with
      | some i => .arr (l.set i v)
      | none => .arr l

/-- Heap lookup by address. -/
def heapFind : List (Nat × HObj) → Nat → Option HObj
  | [], _ => none
  | p :: rest, a => if p.1 = a then some p.2 else heapFind rest a

/-- Raw read `obj[key]` on the object at address `a` (no trap involved). -/
def heapGetVal (h : List (Nat × HObj)) (a : Nat) (k : Key) : JSVal :=
  match heapFind h a with
  | some ob => hobjGet ob k
  | none => .undefined

/-- Store `v` at property `k` of the object at address `a`. -/
def heapSetVal : List (Nat × HObj) → Nat → Key → JSVal → List (Nat × HObj)
  | [], _, _, _ => []
  | p :: rest, a, k, v =>
      if p.1 = a then (p.1, hobjSet p.2 k v) :: rest else p :: heapSetVal rest a k v

/-- Replace the whole heap object at address `a` (used by the array-method
handlers, which mutate the raw array via `Array.prototype` methods). -/
def heapSetObj : List (Nat × HObj) → Nat → HObj → List (Nat × HObj)
  | [], _, _ => []
  | p :: rest, a, ob => if p.1 = a then (p.1, ob) :: rest else p :: heapSetObj rest a ob

/-- Models `Set.prototype.add` on an insertion-ordered set represented as a
duplicate-free list (the dependency sets of `track`, line 277, and
`NOTIFICATION_QUEUE`, line 178). -/
def addUnique (l : List EffId) (e : EffId) : List EffId :=
  if e ∈ l then l else l ++ [e]

/-- The tracker entry list: `STATE_TRACKER` flattened to an association list
from (target identity, key) to the dependent-effect set (state.js lines
264-278 describe the nested WeakMap/Map/Set). -/
abbrev Tracker := List ((JSVal × Key) × List EffId)

/-- Dependent set of `(t, k)` in the tracker (`STATE_TRACKER.get(target)?.get(key)`,
line 176); empty when absent. -/
def trackerGetL : Tracker → JSVal → Key → List EffId
  | [], _, _ => []
  | p :: rest, t, k => if p.1 = (t, k) then p.2 else trackerGetL rest t k

/-- Embeds `track(target, key)` (state.js lines 270-278): create the per-target map
and per-key set on demand and add `CURRENT_EFFECT`. -/
def trackerAdd : Tracker → JSVal → Key → EffId → Tracker
  | [], t, k, e => [((t, k), [e])]
  | p :: rest, t, k, e =>
      if p.1 = (t, k) then (p.1, addUnique p.2 e) :: rest
      else p :: trackerAdd rest t k e

/-- The module-level mutable state of `state.js` (lines 5-10) plus ghost
observation fields (`notifyLog`, `runs`, `obs`, `swallowed`, `disposeErrors`)
that record externally observable events without influencing behavior. -/
structure RState where
  /-- The raw object heap. -/
  heap : List (Nat × HObj)
  /-- Proxy identity → its target (each `new Proxy(target, …)`). -/
  proxies : List (Nat × JSVal)
  /-- Next fresh proxy identity. -/
  nextProxy : Nat
  /-- `STATE_TRACKER` (line 5). -/
  tracker : Tracker
  /-- `NOTIFICATION_QUEUE` (line 9): insertion-ordered, duplicate-free. -/
  queue : List EffId
  /-- `NOTIFICATION_FLUSH_PENDING` (line 10). -/
  flushPending : Bool
  /-- Ghost: number of `queueMicrotask` calls issued by `notify` (line 183). -/
  microtasks : Nat
  /-- Ghost: every `notify(target, key)` call in order (line 175). -/
  notifyLog : List (JSVal × Key)
  /-- Count of errors reaching the flush-level catch, `console.error` at
  line 188 — the error channel of spec section 7. -/
  errorChannel : Nat
  /-- Ghost: errors swallowed by the empty catch inside `wrappedFn`
  (lines 296-301). -/
  swallowed : Nat
  /-- Ghost: exceptions thrown out of a disposer call (see `dispose`). -/
  disposeErrors : Nat
  /-- Ghost: every effect run, in order (initial runs and flush re-runs). -/
  runs : List EffId
  /-- Ghost: per run, the values the effect body read. -/
  obs : List (EffId × List JSVal)
  /-- `EFFECT_REGISTRY` (line 7). -/
  registry : List EffId
deriving DecidableEq, Repr

/-- Target of a proxy identity. -/
def proxyTarget (s : RState) (p : Nat) : Option JSVal :=
  match s.proxies.find? (fun q => q.1 = p) with
  | some q => some q.2
  | none => none

/-- Embeds `createProxy(target)` (state.js line 208): allocate a fresh Proxy over
`target`.  There is no cache of object wrappers: every call returns a new
proxy identity. -/
def addProxy (s : RState) (t : JSVal) : RState × JSVal :=
  ({ s with proxies := (s.nextProxy, t) :: s.proxies, nextProxy := s.nextProxy + 1 },
   .proxy s.nextProxy)

/-- The test `value !== null && typeof value === 'object'` (line 233) for our value
universe: raw objects and proxies are object-typed. -/
def isObjTyped : JSVal → Bool
  | .obj _ => true
  | .proxy _ => true
  | _ => false

/-- Embeds `if (CURRENT_EFFECT) track(obj, key)` (line 211): record the dependency
edge when a computation is current. -/
def trackIf (tr : Option EffId) (s : RState) (t : JSVal) (k : Key) : RState :=
  match tr with
  | none => s
  | some e => { s with tracker := trackerAdd s.tracker t k e }

/-- Embeds `notify(target, key)` (state.js lines 175-195): add every dependent of
`(target, key)` to `NOTIFICATION_QUEUE`, and if no flush is pending, mark one
pending and schedule a microtask.  The microtask body itself is
`flushCallback` below and runs later (at a `Step.micro`). -/
def notify (s : RState) (t : JSVal) (k : Key) : RState :=
  let deps := trackerGetL s.tracker t k
  let s1 := { s with queue := deps.foldl addUnique s.queue,
                     notifyLog := s.notifyLog ++ [(t, k)] }
  if s1.flushPending then s1
  else { s1 with flushPending := true, microtasks := s1.microtasks + 1 }

/-- Embeds `if (value !== null && typeof value === 'object') return createProxy(value)`
(lines 233-235): wrap object-typed read results in a fresh proxy. -/
def wrapIfObj (s : RState) (v : JSVal) : RState × JSVal :=
  if isObjTyped v then addProxy s v else (s, v)

/-- The proxy `get` trap (state.js lines 209-238) for plain property reads:
track the access when a computation is current, fetch the value with
`Reflect.get` (which re-enters the trap when the target is itself a proxy —
`fuel` bounds that nesting), and wrap object-typed results in a fresh proxy.
Array method interception (lines 217-230) is embedded separately as the
operations `pushOp`, `shiftOp`, `callMethodOp`, `iterOp`. -/
def trapGet (tr : Option EffId) : Nat → RState → JSVal → Key → RState × JSVal
  | fuel, s, t, k =>
    let s1 := trackIf tr s t k
    match t with
    | .obj a => wrapIfObj s1 (heapGetVal s1.heap a k)
    | .proxy p =>
        match fuel with
        | 0 => wrapIfObj s1 .undefined
        | f + 1 =>
            match proxyTarget s1 p with
            | some t2 =>
                let r := trapGet tr f s1 t2 k
                wrapIfObj r.1 r.2
            | none => wrapIfObj s1 .undefined
    | _ => wrapIfObj s1 .undefined

/-- The proxy `set` trap (state.js lines 240-255): read the old value, wrap an
object-typed new value in a fresh proxy (line 245) *before* the comparison,
store it, and `notify` only when the stored value differs from the old one
(`oldValue !== value`, line 251).  When the target is itself a proxy,
`obj[key]` and `Reflect.set` re-enter the inner traps. -/
def trapSet (tr : Option EffId) : Nat → RState → JSVal → Key → JSVal → RState
  | fuel, s, t, k, v =>
    match t with
    | .obj a =>
        let oldV := heapGetVal s.heap a k
        let wr := if isObjTyped v then addProxy s v else (s, v)
        let s2 := { wr.1 with heap := heapSetVal wr.1.heap a k wr.2 }
        if wr.2 = oldV then s2 else notify s2 (.obj a) k
    | .proxy p =>
        match fuel with
        | 0 => s
        | f + 1 =>
            match proxyTarget s p with
            | some t2 =>
                let ro := trapGet tr f s t2 k
                let wr := if isObjTyped v then addProxy ro.1 v else (ro.1, v)
                let s2 := trapSet tr f wr.1 t2 k wr.2
                if wr.2 = ro.2 then s2 else notify s2 (.proxy p) k
            | none => s
    | _ => s

/-- Recursion bound for proxy-over-proxy nesting and for the flush worklist;
large enough for every scenario in this file. -/
def FUEL : Nat := 64

/-- Read a property chain starting from a value (each step is one proxy `get`
trap).  `state.a.b` is `getPath tr FUEL s rootProxy ["a", "b"]`. -/
def getPath (tr : Option EffId) (fuel : Nat) : RState → JSVal → List Key → RState × JSVal
  | s, v, [] => (s, v)
  | s, v, k :: ks =>
      match v with
      | .proxy pid =>
          match proxyTarget s pid with
          | some t =>
              let r := trapGet tr fuel s t k
              getPath tr fuel r.1 r.2 ks
          | none => (s, .undefined)
      | _ => (s, .undefined)

/-- Assignment `base[k] = v` where `base` is a value obtained from a read: a proxy fires
its `set` trap; assignment to a non-proxy value is not exercised. -/
def setOnVal (tr : Option EffId) (s : RState) (base : JSVal) (k : Key) (v : JSVal) : RState :=
  match base with
  | .proxy pid =>
      match proxyTarget s pid with
      | some t => trapSet tr FUEL s t k v
      | none => s
  | _ => s

/-- Read `state.k1.….kn` through the reactive view, whose root is proxy 0. -/
def readRootPath (tr : Option EffId) (s : RState) (p : List Key) : RState × JSVal :=
  getPath tr FUEL s (.proxy 0) p

/-- Write `state.k1.….kn = v` through the reactive view: navigate the prefix
with `get` traps, then fire the final `set` trap. -/
def writeRootPath (tr : Option EffId) (s : RState) (p : List Key) (v : JSVal) : RState :=
  match p.getLast? with
  | none => s
  | some k =>
      let r := getPath tr FUEL s (.proxy 0) p.dropLast
      setOnVal tr r.1 r.2 k v

/-- One observable action of an effect callback body. -/
inductive Act where
  | read : List Key → Act
  | write : List Key → JSVal → Act
  | incr : List Key → Act
deriving DecidableEq, Repr

/-- An effect callback: a list of actions, optionally ending in a throw
(modelling `fn` bodies passed to `effect`). -/
structure EffSpec where
  acts : List Act
  throws : Bool
deriving DecidableEq, Repr

/-- The registered effect callbacks, by identifier. -/
abbrev Effs := List (EffId × EffSpec)

/-- Increment `x + 1` on a read value (for `state.y = state.y + 1` bodies). -/
def incVal : JSVal → JSVal
  | .prim n => .prim (n + 1)
  | _ => .prim 0

/-- Run the actions of an effect body in order, returning the values read.
`tr` is `CURRENT_EFFECT`: it is the effect itself during the initial run
inside `effect` (line 304) and `null` during flush re-runs (the flush at
lines 184-190 never sets `CURRENT_EFFECT`). -/
def runActs (tr : Option EffId) : List Act → RState → RState × List JSVal
  | [], s => (s, [])
  | .read p :: rest, s =>
      let r := readRootPath tr s p
      let r2 := runActs tr rest r.1
      (r2.1, r.2 :: r2.2)
  | .write p v :: rest, s => runActs tr rest (writeRootPath tr s p v)
  | .incr p :: rest, s =>
      let r := readRootPath tr s p
      runActs tr rest (writeRootPath tr r.1 p (incVal r.2))

/-- Run the raw callback `fn` of effect `e` once; the returned flag is whether
`fn` threw.  Ghost fields record the run and its observations. -/
def runEffectOnce (effs : Effs) (tr : Option EffId) (s : RState) (e : EffId) : RState × Bool :=
  match effs.find? (fun p => p.1 = e) with
  | none => (s, false)
  | some pe =>
      let r := runActs tr pe.2.acts s
      ({ r.1 with runs := r.1.runs ++ [e], obs := r.1.obs ++ [(e, r.2)] }, pe.2.throws)

/-- Embeds `wrappedFn` (state.js lines 295-301): run `fn` inside `try { … } catch (e)
{ }` — any error is swallowed and never propagates; the returned flag (whether
the call threw *out of* `wrappedFn`) is therefore always `false`. -/
def runWrapped (effs : Effs) (tr : Option EffId) (s : RState) (e : EffId) : RState × Bool :=
  let r := runEffectOnce effs tr s e
  (if r.2 then { r.1 with swallowed := r.1.swallowed + 1 } else r.1, false)

/-- Embeds `effect(fn)` registration (state.js lines 294-306): add to
`EFFECT_REGISTRY`, set `CURRENT_EFFECT`, run once, clear `CURRENT_EFFECT`. -/
def registerEffect (effs : Effs) (s : RState) (e : EffId) : RState :=
  let s0 := { s with registry := s.registry ++ [e] }
  (runWrapped effs (some e) s0 e).1

/-- The `NOTIFICATION_QUEUE.forEach(…)` of the flush (lines 184-190).  JS
`Set.forEach` visits elements in insertion order *including elements added
during the iteration*, so this is a worklist walk by index over a queue that
in-flush `notify` calls may extend at the end.  Each invocation is wrapped in
`try { effect() } catch (e) { console.error(…) }`; since `wrappedFn` already
swallows, the catch here (`errorChannel`) can only count escapes of the
wrapper. -/
def flushLoop (effs : Effs) : Nat → RState → Nat → RState
  | 0, s, _ => s
  | fuel + 1, s, i =>
      if i < s.queue.length then
        let e := s.queue.getD i 0
        let r := runWrapped effs none s e
        let s2 := if r.2 then { r.1 with errorChannel := r.1.errorChannel + 1 } else r.1
        flushLoop effs fuel s2 (i + 1)
      else s

/-- The microtask body scheduled by `notify` (state.js lines 183-193): run the
queue, then `NOTIFICATION_QUEUE.clear()` and reset `NOTIFICATION_FLUSH_PENDING`. -/
def flushCallback (effs : Effs) (fuel : Nat) (s : RState) : RState :=
  let s1 := flushLoop effs fuel s 0
  { s1 with queue := [], flushPending := false }

/-- The disposer returned by `effect` together with `cleanup` (state.js lines
308-320).  `EFFECT_REGISTRY.delete(wrappedFn)` succeeds; then `cleanup` calls
`STATE_TRACKER.forEach(…)` — but `STATE_TRACKER` is a `WeakMap` (line 5),
which has no `forEach` method, so the call throws a `TypeError` before
touching any dependency edge.  The returned flag records that the disposer
call threw; tracker and queue are left unchanged. -/
def dispose (s : RState) (e : EffId) : RState × Bool :=
  ({ s with registry := s.registry.filter (fun x => x ≠ e) }, true)

/-- The instrumented `push` returned by the `get` trap for key `"push"`
(state.js lines 218-223 with `arrayHandlers.push`, line 22): run
`Array.prototype.push`, then `notify(target, 'length')` — and nothing else.
(The index-notifying `push` case of `createArrayMethodWrapper`, lines 96-102,
is unreachable: the `arrayHandlers[key]` branch is checked first.)  The root
object (address 0) is the array. -/
def pushOp (s : RState) (items : List JSVal) : RState :=
  match heapFind s.heap 0 with
  | some (.arr l) =>
      let s1 := { s with heap := heapSetObj s.heap 0 (.arr (l ++ items)) }
      notify s1 (.obj 0) "length"
  | _ => s

/-- The instrumented `shift` (`arrayHandlers.shift`, state.js lines 25-28):
run `Array.prototype.shift`, then `notify(target, 'length')` and
`notify(target, '0')` — no other index is notified. -/
def shiftOp (s : RState) : RState :=
  match heapFind s.heap 0 with
  | some (.arr l) =>
      let s1 := { s with heap := heapSetObj s.heap 0 (.arr l.tail) }
      let s2 := notify s1 (.obj 0) "length"
      notify s2 (.obj 0) "0"
  | _ => s

/-- Calling a read-only array method not listed in `arrayHandlers` (`map`,
`filter`, `slice`, `indexOf`, …) through the proxy: the `get` trap returns a
`createArrayMethodWrapper` closure (lines 226-229) whose `switch` falls into
the `default` case (lines 154-159): after the original call (which does not
mutate the array), it notifies `'length'` and then every index. -/
def callMethodOp (s : RState) : RState :=
  match heapFind s.heap 0 with
  | some (.arr l) =>
      let s1 := notify s (.obj 0) "length"
      (List.range l.length).foldl (fun st i => notify st (.obj 0) (natToKey i)) s1
  | _ => s

/-- Iterating the array via `Symbol.iterator`: `arrayHandlers[Symbol.iterator]`
(state.js lines 67-70) performs no notification at all. -/
def iterOp (s : RState) : RState := s

/-- One step of client code in a synchronous burst, plus `micro`, the event
loop running the microtask scheduled by `notify` (a no-op when none is
pending). -/
inductive Step where
  | reg : EffId → Step
  | write : List Key → JSVal → Step
  | push : List JSVal → Step
  | shift : Step
  | mapCall : Step
  | iter : Step
  | micro : Step
  | disp : EffId → Step
deriving DecidableEq, Repr

/-- Execute one step. -/
def runStep (effs : Effs) (s : RState) : Step → RState
  | .reg e => registerEffect effs s e
  | .write p v => writeRootPath none s p v
  | .push items => pushOp s items
  | .shift => shiftOp s
  | .mapCall => callMethodOp s
  | .iter => iterOp s
  | .micro => if s.flushPending then flushCallback effs FUEL s else s
  | .disp e =>
      let r := dispose s e
      { r.1 with disposeErrors := r.1.disposeErrors + (if r.2 then 1 else 0) }

/-- Execute a list of steps. -/
def runSteps (effs : Effs) : RState → List Step → RState
  | s, [] => s
  | s, st :: rest => runSteps effs (runStep effs s st) rest

/-- Embeds `createState(initialState)` (state.js lines 285-287): the initial module
state with the given heap and the root proxy (identity 0) over the root object
(address 0). -/
def initState (h : List (Nat × HObj)) : RState :=
  { heap := h, proxies := [(0, .obj 0)], nextProxy := 1, tracker := [],
    queue := [], flushPending := false, microtasks := 0, notifyLog := [],
    errorChannel := 0, swallowed := 0, disposeErrors := 0, runs := [],
    obs := [], registry := [] }

/-! ### Scenario definitions used by the claim theorems -/

/-- The nesting prefix `a.a.….a` of depth `n`. -/
def chainPath (n : Nat) : List Key := List.replicate n "a"

/-- A nested-object heap: the object at address `i` has a single field `a`
holding the object at `i + 1`, for `m` levels, and the innermost object has
two primitive fields `b` and `c`.  `chainFrom 0 n bv cv` is the heap for the
state `{a: {a: … {b: bv, c: cv}}}` of nesting depth `n`. -/
def chainFrom : Nat → Nat → Int → Int → List (Nat × HObj)
  | i, 0, bv, cv => [(i, .record [("b", .prim bv), ("c", .prim cv)])]
  | i, m + 1, bv, cv => (i, .record [("a", .obj (i + 1))]) :: chainFrom (i + 1) m bv cv

/-- One computation that reads exactly the property path `a.….a.b` of depth
`n + 1`. -/
def chainEffs (n : Nat) : Effs := [(1, ⟨[.read (chainPath n ++ ["b"])], false⟩)]

/-- State `{a: {b: 1}}` for the identity-stability claim. -/
def c2S : RState := initState [(0, .record [("a", .obj 1)]), (1, .record [("b", .prim 1)])]

/-- Computation 1 reads `x` and then executes `y = y + 1`; computation 2 reads
`y`.  Used to exercise enqueues that happen while a flush is running. -/
def effs3b : Effs := [(1, ⟨[.read ["x"], .incr ["y"]], false⟩), (2, ⟨[.read ["y"]], false⟩)]

/-- State `{x: 1, y: 1}`. -/
def s3b : RState := initState [(0, .record [("x", .prim 1), ("y", .prim 1)])]

/-- One computation depending on the two properties `x` and `y`. -/
def effs3a : Effs := [(1, ⟨[.read ["x"], .read ["y"]], false⟩)]

/-- State `{x: 1, y: 2}`. -/
def s3a : RState := initState [(0, .record [("x", .prim 1), ("y", .prim 2)])]

/-- A computation reading index 2 and `length` of the reactive array. -/
def effs4 : Effs := [(1, ⟨[.read ["2"], .read ["length"]], false⟩)]

/-- A computation reading only index 2 of the reactive array. -/
def effs4x : Effs := [(1, ⟨[.read ["2"]], false⟩)]

/-- The container `[1, 2]`. -/
def s4 : RState := initState [(0, .arr [.prim 1, .prim 2])]

/-- A computation reading index 0 of the reactive array. -/
def effs5 : Effs := [(1, ⟨[.read ["0"]], false⟩)]

/-- A computation reading only index 1 of the reactive array. -/
def effs5x : Effs := [(1, ⟨[.read ["1"]], false⟩)]

/-- The container `[1, 2, 3]`. -/
def s5 : RState := initState [(0, .arr [.prim 1, .prim 2, .prim 3])]

/-- A computation reading property `k`, whose value is a structured object. -/
def effs6 : Effs := [(1, ⟨[.read ["k"]], false⟩)]

/-- State `{k: o}` where `o` is the (empty) object at address 1. -/
def s6 : RState := initState [(0, .record [("k", .obj 1)]), (1, .record [])]

/-- Two computations reading `x`; the first throws at the end of every run. -/
def effs7 : Effs := [(1, ⟨[.read ["x"]], true⟩), (2, ⟨[.read ["x"]], false⟩)]

/-- State `{x: 1}`. -/
def s7 : RState := initState [(0, .record [("x", .prim 1)])]

/-- A computation reading index 0 of the reactive array. -/
def effs8 : Effs := [(1, ⟨[.read ["0"]], false⟩)]

/-- The container `[1, 2]`. -/
def s8 : RState := initState [(0, .arr [.prim 1, .prim 2])]

/-- A computation reading property `x`. -/
def effs9 : Effs := [(1, ⟨[.read ["x"]], false⟩)]

/-- State `{x: 1}`. -/
def s9 : RState := initState [(0, .record [("x", .prim 1)])]

/-- Two distinct computations both reading property `x`. -/
def effs10 : Effs := [(1, ⟨[.read ["x"]], false⟩), (2, ⟨[.read ["x"]], false⟩)]

/-- State `{x: 1}`. -/
def s10 : RState := initState [(0, .record [("x", .prim 1)])]

/-- Freshness of the proxy table: every allocated proxy identity is below
`nextProxy`, so `addProxy` never shadows an existing proxy. -/
def WF (s : RState) : Prop := ∀ q ∈ s.proxies, q.1 < s.nextProxy

/-- State `s'` differs from `s` at most in the proxy table, heap, queue, flush flag,
microtask count and notify log — in particular the tracker, the run log, the
observations and the error counters are unchanged.  This is the footprint of
every operation an effect body can perform while no computation is current
(flush re-runs never set `CURRENT_EFFECT`). -/
def SideShape (s s' : RState) : Prop :=
  ∃ ps np hp q fl mi nl,
    s' = { s with proxies := ps, nextProxy := np, heap := hp, queue := q,
                  flushPending := fl, microtasks := mi, notifyLog := nl }

/-- The pending set is only ever extended at its end, and duplicate-freeness
is preserved (JS `Set.add` semantics of `NOTIFICATION_QUEUE`). -/
def QExt (s s' : RState) : Prop :=
  (∃ tl, s'.queue = s.queue ++ tl) ∧ (s.queue.Nodup → s'.queue.Nodup)

/-! ### Queue lemmas: the pending set only grows at the end and stays
duplicate-free (JS `Set` semantics), which is what bounds each computation to
at most one invocation per flush. -/

theorem addUnique_extend (l : List EffId) (e : EffId) : ∃ t, addUnique l e = l ++ t := by
  unfold addUnique
  split
  · exact ⟨[], by simp⟩
  · exact ⟨[e], rfl⟩

theorem addUnique_nodup {l : List EffId} (e : EffId) (h : l.Nodup) :
    (addUnique l e).Nodup := by
  unfold addUnique
  split
  · exact h
  · next he => simp [List.nodup_append, h, he]

theorem foldl_addUnique_extend (deps : List EffId) :
    ∀ l, ∃ t, deps.foldl addUnique l = l ++ t := by
  induction deps with
  | nil => exact fun l => ⟨[], by simp⟩
  | cons d ds ih =>
      intro l
      obtain ⟨t2, h2⟩ := ih (addUnique l d)
      obtain ⟨t1, h1⟩ := addUnique_extend l d
      exact ⟨t1 ++ t2, by rw [List.foldl_cons, h2, h1, List.append_assoc]⟩

theorem foldl_addUnique_nodup (deps : List EffId) :
    ∀ l : List EffId, l.Nodup → (deps.foldl addUnique l).Nodup := by
  induction deps with
  | nil => exact fun l h => h
  | cons d ds ih => exact fun l h => ih _ (addUnique_nodup d h)

theorem QExt_of_eq {s s' : RState} (h : s'.queue = s.queue) : QExt s s' :=
  ⟨⟨[], by simp [h]⟩, fun hn => h ▸ hn⟩

theorem QExt_rfl (s : RState) : QExt s s := QExt_of_eq rfl

theorem QExt_trans {s1 s2 s3 : RState} (h1 : QExt s1 s2) (h2 : QExt s2 s3) : QExt s1 s3 := by
  obtain ⟨⟨t1, e1⟩, n1⟩ := h1
  obtain ⟨⟨t2, e2⟩, n2⟩ := h2
  exact ⟨⟨t1 ++ t2, by rw [e2, e1, List.append_assoc]⟩, fun h => n2 (n1 h)⟩

theorem SideShape_rfl (s : RState) : SideShape s s :=
  ⟨s.proxies, s.nextProxy, s.heap, s.queue, s.flushPending, s.microtasks, s.notifyLog, rfl⟩

theorem SideShape_trans {s1 s2 s3 : RState} (h1 : SideShape s1 s2) (h2 : SideShape s2 s3) :
    SideShape s1 s3 := by
  obtain ⟨a1, a2, a3, a4, a5, a6, a7, e1⟩ := h1
  obtain ⟨b1, b2, b3, b4, b5, b6, b7, e2⟩ := h2
  subst e1
  exact ⟨b1, b2, b3, b4, b5, b6, b7, e2⟩

theorem SideShape_runs {s s' : RState} (h : SideShape s s') : s'.runs = s.runs := by
  obtain ⟨a1, a2, a3, a4, a5, a6, a7, e⟩ := h
  subst e
  rfl

theorem SideShape_tracker {s s' : RState} (h : SideShape s s') : s'.tracker = s.tracker := by
  obtain ⟨a1, a2, a3, a4, a5, a6, a7, e⟩ := h
  subst e
  rfl

/-- The function `notify` only touches the queue, flush flag, microtask count and log; the
queue is extended in order and stays duplicate-free. -/
theorem notify_spec (s : RState) (t : JSVal) (k : Key) :
    SideShape s (notify s t k) ∧ QExt s (notify s t k) := by
  obtain ⟨tl, htl⟩ := foldl_addUnique_extend (trackerGetL s.tracker t k) s.queue
  have hq : (notify s t k).queue = (trackerGetL s.tracker t k).foldl addUnique s.queue := by
    simp only [notify]
    split <;> rfl
  have hext : QExt s (notify s t k) :=
    ⟨⟨tl, by rw [hq, htl]⟩, fun h => by rw [hq]; exact foldl_addUnique_nodup _ _ h⟩
  refine ⟨?_, hext⟩
  simp only [notify]
  split
  · exact ⟨s.proxies, s.nextProxy, s.heap, _, _, _, _, rfl⟩
  · exact ⟨s.proxies, s.nextProxy, s.heap, _, _, _, _, rfl⟩

/-- The `get` trap with no current computation changes only the proxy table
(fresh wrappers) — never the tracker, heap, queue, or any ghost field. -/
theorem trapGet_none_shape :
    ∀ (fuel : Nat) (s : RState) (t : JSVal) (k : Key),
      ∃ ps np v, trapGet none fuel s t k = ({ s with proxies := ps, nextProxy := np }, v) := by
  intro fuel
  induction fuel with
  | zero =>
      intro s t k
      cases t with
      | prim n => exact ⟨s.proxies, s.nextProxy, _, rfl⟩
      | undefined => exact ⟨s.proxies, s.nextProxy, _, rfl⟩
      | proxy p => exact ⟨s.proxies, s.nextProxy, _, rfl⟩
      | obj a =>
          simp only [trapGet, trackIf, wrapIfObj, addProxy]
          split
          · exact ⟨_, _, _, rfl⟩
          · exact ⟨s.proxies, s.nextProxy, _, rfl⟩
  | succ f ih =>
      intro s t k
      cases t with
      | prim n => exact ⟨s.proxies, s.nextProxy, _, rfl⟩
      | undefined => exact ⟨s.proxies, s.nextProxy, _, rfl⟩
      | obj a =>
          simp only [trapGet, trackIf, wrapIfObj, addProxy]
          split
          · exact ⟨_, _, _, rfl⟩
          · exact ⟨s.proxies, s.nextProxy, _, rfl⟩
      | proxy p =>
          cases hpt : proxyTarget s p with
          | none =>
              simp only [trapGet, trackIf, hpt]
              exact ⟨s.proxies, s.nextProxy, _, rfl⟩
          | some t2 =>
              obtain ⟨ps, np, v, hr⟩ := ih s t2 k
              simp only [trapGet, trackIf, hpt, hr, wrapIfObj, addProxy]
              split
              · exact ⟨_, _, _, rfl⟩
              · exact ⟨ps, np, v, rfl⟩

/-- Reading a property chain with no current computation likewise changes only
the proxy table. -/
theorem getPath_none_shape (fuel : Nat) :
    ∀ (p : List Key) (s : RState) (v : JSVal),
      ∃ ps np v2, getPath none fuel s v p = ({ s with proxies := ps, nextProxy := np }, v2) := by
  intro p
  induction p with
  | nil => exact fun s v => ⟨s.proxies, s.nextProxy, v, rfl⟩
  | cons k ks ih =>
      intro s v
      cases v with
      | prim n => exact ⟨s.proxies, s.nextProxy, _, rfl⟩
      | undefined => exact ⟨s.proxies, s.nextProxy, _, rfl⟩
      | obj a => exact ⟨s.proxies, s.nextProxy, _, rfl⟩
      | proxy pid =>
          cases hpt : proxyTarget s pid with
          | none =>
              simp only [getPath, hpt]
              exact ⟨s.proxies, s.nextProxy, _, rfl⟩
          | some t =>
              obtain ⟨ps1, np1, v1, h1⟩ := trapGet_none_shape fuel s t k
              obtain ⟨ps2, np2, v2, h2⟩ := ih ({ s with proxies := ps1, nextProxy := np1 }) v1
              simp only [getPath, hpt, h1]
              exact ⟨ps2, np2, v2, h2⟩

theorem trapGet_none_SQ (fuel : Nat) (s : RState) (t : JSVal) (k : Key) :
    SideShape s (trapGet none fuel s t k).1 ∧ QExt s (trapGet none fuel s t k).1 := by
  obtain ⟨ps, np, v, h⟩ := trapGet_none_shape fuel s t k
  have h1 : (trapGet none fuel s t k).1 = { s with proxies := ps, nextProxy := np } := by
    rw [h]
  rw [h1]
  exact ⟨⟨ps, np, s.heap, s.queue, s.flushPending, s.microtasks, s.notifyLog, rfl⟩,
    QExt_of_eq rfl⟩

theorem getPath_none_SQ (fuel : Nat) (p : List Key) (s : RState) (v : JSVal) :
    SideShape s (getPath none fuel s v p).1 ∧ QExt s (getPath none fuel s v p).1 := by
  obtain ⟨ps, np, v2, h⟩ := getPath_none_shape fuel p s v
  have h1 : (getPath none fuel s v p).1 = { s with proxies := ps, nextProxy := np } := by
    rw [h]
  rw [h1]
  exact ⟨⟨ps, np, s.heap, s.queue, s.flushPending, s.microtasks, s.notifyLog, rfl⟩,
    QExt_of_eq rfl⟩

/-- The `set` trap on a raw-object target (any fuel): only the proxy table,
heap, queue, flush flag, microtask count and log can change, and the queue is
only extended. -/
theorem trapSet_obj_SQ (fuel : Nat) (s : RState) (a : Nat) (k : Key) (v : JSVal) :
    SideShape s (trapSet none fuel s (.obj a) k v) ∧
    QExt s (trapSet none fuel s (.obj a) k v) := by
  have hbody : trapSet none fuel s (.obj a) k v =
      (let wr := if isObjTyped v then addProxy s v else (s, v)
       let s2 := { wr.1 with heap := heapSetVal wr.1.heap a k wr.2 }
       if wr.2 = heapGetVal s.heap a k then s2 else notify s2 (.obj a) k) := by
    cases fuel <;> rfl
  rw [hbody]
  split
  · dsimp only
    split
    · exact ⟨⟨_, _, _, _, _, _, _, rfl⟩, QExt_of_eq rfl⟩
    · exact ⟨SideShape_trans ⟨_, _, _, _, _, _, _, rfl⟩ (notify_spec _ _ _).1,
        QExt_trans (QExt_of_eq rfl) (notify_spec _ _ _).2⟩
  · dsimp only
    split
    · exact ⟨⟨_, _, _, _, _, _, _, rfl⟩, QExt_of_eq rfl⟩
    · exact ⟨SideShape_trans ⟨_, _, _, _, _, _, _, rfl⟩ (notify_spec _ _ _).1,
        QExt_trans (QExt_of_eq rfl) (notify_spec _ _ _).2⟩

/-- The `set` trap with no current computation: the tracker, run log,
observations and error counters are untouched; the queue is only extended and
stays duplicate-free. -/
theorem trapSet_none_SQ :
    ∀ (fuel : Nat) (s : RState) (t : JSVal) (k : Key) (v : JSVal),
      SideShape s (trapSet none fuel s t k v) ∧ QExt s (trapSet none fuel s t k v) := by
  intro fuel
  induction fuel with
  | zero =>
      intro s t k v
      cases t with
      | prim n => exact ⟨SideShape_rfl s, QExt_rfl s⟩
      | undefined => exact ⟨SideShape_rfl s, QExt_rfl s⟩
      | proxy p => exact ⟨SideShape_rfl s, QExt_rfl s⟩
      | obj a => exact trapSet_obj_SQ 0 s a k v
  | succ f ih =>
      intro s t k v
      cases t with
      | prim n => exact ⟨SideShape_rfl s, QExt_rfl s⟩
      | undefined => exact ⟨SideShape_rfl s, QExt_rfl s⟩
      | obj a => exact trapSet_obj_SQ (f + 1) s a k v
      | proxy p =>
          cases hpt : proxyTarget s p with
          | none =>
              simp only [trapSet, hpt]
              exact ⟨SideShape_rfl s, QExt_rfl s⟩
          | some t2 =>
              have hget := trapGet_none_SQ f s t2 k
              simp only [trapSet, hpt]
              split
              · split
                · exact ⟨SideShape_trans
                      (SideShape_trans hget.1 ⟨_, _, _, _, _, _, _, rfl⟩) (ih _ t2 k _).1,
                    QExt_trans (QExt_trans hget.2
                      (QExt_of_eq rfl : QExt (trapGet none f s t2 k).1
                        (addProxy (trapGet none f s t2 k).1 v).1)) (ih _ t2 k _).2⟩
                · exact ⟨SideShape_trans (SideShape_trans
                      (SideShape_trans hget.1 ⟨_, _, _, _, _, _, _, rfl⟩) (ih _ t2 k _).1)
                      (notify_spec _ _ _).1,
                    QExt_trans (QExt_trans (QExt_trans hget.2
                      (QExt_of_eq rfl : QExt (trapGet none f s t2 k).1
                        (addProxy (trapGet none f s t2 k).1 v).1))
                      (ih _ t2 k _).2) (notify_spec _ _ _).2⟩
              · split
                · exact ⟨SideShape_trans hget.1 (ih _ t2 k _).1,
                    QExt_trans hget.2 (ih _ t2 k _).2⟩
                · exact ⟨SideShape_trans (SideShape_trans hget.1 (ih _ t2 k _).1)
                      (notify_spec _ _ _).1,
                    QExt_trans (QExt_trans hget.2 (ih _ t2 k _).2) (notify_spec _ _ _).2⟩

theorem setOnVal_none_SQ (s : RState) (base : JSVal) (k : Key) (v : JSVal) :
    SideShape s (setOnVal none s base k v) ∧ QExt s (setOnVal none s base k v) := by
  cases base with
  | prim n => exact ⟨SideShape_rfl s, QExt_rfl s⟩
  | undefined => exact ⟨SideShape_rfl s, QExt_rfl s⟩
  | obj a => exact ⟨SideShape_rfl s, QExt_rfl s⟩
  | proxy pid =>
      cases hpt : proxyTarget s pid with
      | none =>
          simp only [setOnVal, hpt]
          exact ⟨SideShape_rfl s, QExt_rfl s⟩
      | some t =>
          simp only [setOnVal, hpt]
          exact trapSet_none_SQ FUEL s t k v

theorem writeRootPath_none_SQ (s : RState) (p : List Key) (v : JSVal) :
    SideShape s (writeRootPath none s p v) ∧ QExt s (writeRootPath none s p v) := by
  cases hgl : p.getLast? with
  | none =>
      simp only [writeRootPath, hgl]
      exact ⟨SideShape_rfl s, QExt_rfl s⟩
  | some k =>
      simp only [writeRootPath, hgl]
      have h1 := getPath_none_SQ FUEL p.dropLast s (.proxy 0)
      have h2 := setOnVal_none_SQ (getPath none FUEL s (.proxy 0) p.dropLast).1
        (getPath none FUEL s (.proxy 0) p.dropLast).2 k v
      exact ⟨SideShape_trans h1.1 h2.1, QExt_trans h1.2 h2.2⟩

/-- An effect body run while no computation is current (a flush re-run)
leaves the tracker, run log, observations and error counters unchanged and
only extends the queue. -/
theorem runActs_none_SQ :
    ∀ (acts : List Act) (s : RState),
      SideShape s (runActs none acts s).1 ∧ QExt s (runActs none acts s).1 := by
  intro acts
  induction acts with
  | nil => exact fun s => ⟨SideShape_rfl s, QExt_rfl s⟩
  | cons a rest ih =>
      intro s
      cases a with
      | read p =>
          have h1 := getPath_none_SQ FUEL p s (.proxy 0)
          have h2 := ih (readRootPath none s p).1
          exact ⟨SideShape_trans h1.1 h2.1, QExt_trans h1.2 h2.2⟩
      | write p v =>
          have h1 := writeRootPath_none_SQ s p v
          have h2 := ih (writeRootPath none s p v)
          exact ⟨SideShape_trans h1.1 h2.1, QExt_trans h1.2 h2.2⟩
      | incr p =>
          have h1 := getPath_none_SQ FUEL p s (.proxy 0)
          have h2 := writeRootPath_none_SQ (readRootPath none s p).1 p
            (incVal (readRootPath none s p).2)
          have h3 := ih (writeRootPath none (readRootPath none s p).1 p
            (incVal (readRootPath none s p).2))
          exact ⟨SideShape_trans (SideShape_trans h1.1 h2.1) h3.1,
            QExt_trans (QExt_trans h1.2 h2.2) h3.2⟩

/-- One flush invocation of effect `e`: the queue is only extended, and the
run log is extended by exactly `[e]` (or not at all, for an unregistered
identifier). -/
theorem runWrapped_none_spec (effs : Effs) (s : RState) (e : EffId) :
    QExt s (runWrapped effs none s e).1 ∧
    ((runWrapped effs none s e).1.runs = s.runs ++ [e] ∨
      (runWrapped effs none s e).1.runs = s.runs) := by
  cases hf : effs.find? (fun p => p.1 = e) with
  | none =>
      simp only [runWrapped, runEffectOnce, hf]
      exact ⟨QExt_rfl s, Or.inr rfl⟩
  | some pe =>
      have h1 := runActs_none_SQ pe.2.acts s
      simp only [runWrapped, runEffectOnce, hf]
      constructor
      · split
        · exact QExt_trans h1.2 (QExt_of_eq rfl)
        · exact QExt_trans h1.2 (QExt_of_eq rfl)
      · refine Or.inl ?_
        split
        · simp only [SideShape_runs h1.1]
        · simp only [SideShape_runs h1.1]

/-- The flush worklist: walking `NOTIFICATION_QUEUE` by index (JS `Set.forEach`
order, including elements appended during the walk) appends to the run log a
list of effect identifiers that is a subsequence of the final queue from the
start position on. -/
theorem flushLoop_spec (effs : Effs) :
    ∀ (fuel i : Nat) (s : RState),
      QExt s (flushLoop effs fuel s i) ∧
      ∃ L, (flushLoop effs fuel s i).runs = s.runs ++ L ∧
        List.Sublist L ((flushLoop effs fuel s i).queue.drop i) := by
  intro fuel
  induction fuel with
  | zero => exact fun i s => ⟨QExt_rfl s, [], by simp [flushLoop], List.nil_sublist _⟩
  | succ f ih =>
      intro i s
      by_cases hi : i < s.queue.length
      · have hb : (runWrapped effs none s (s.queue.getD i 0)).2 = false := rfl
        simp only [flushLoop]
        rw [if_pos hi]
        rw [hb, if_neg Bool.false_ne_true]
        obtain ⟨ihq, L2, ihruns, ihsub⟩ := ih (i + 1) (runWrapped effs none s (s.queue.getD i 0)).1
        have hw := runWrapped_none_spec effs s (s.queue.getD i 0)
        have hQ : QExt s (flushLoop effs f (runWrapped effs none s (s.queue.getD i 0)).1 (i + 1)) :=
          QExt_trans hw.1 ihq
        refine ⟨hQ, ?_⟩
        obtain ⟨tl, htl⟩ := hQ.1
        have hlen : i < (flushLoop effs f (runWrapped effs none s (s.queue.getD i 0)).1 (i + 1)).queue.length := by
          rw [htl, List.length_append]
          omega
        have hdrop := List.drop_eq_getElem_cons hlen
        have hgd : s.queue.getD i 0 = s.queue[i] := by
          simp [List.getD_eq_getElem?_getD, List.getElem?_eq_getElem hi]
        have hat : (flushLoop effs f (runWrapped effs none s (s.queue.getD i 0)).1 (i + 1)).queue[i] = s.queue.getD i 0 := by
          simp only [htl]
          exact (List.getElem_append_left hi).trans hgd.symm
        cases hw.2 with
        | inl hr =>
            refine ⟨s.queue.getD i 0 :: L2, ?_, ?_⟩
            · rw [ihruns, hr, List.append_assoc]
              rfl
            · rw [hdrop, hat]
              exact ihsub.cons₂ _
        | inr hr =>
            refine ⟨L2, ?_, ?_⟩
            · rw [ihruns, hr]
            · rw [hdrop]
              exact ihsub.cons _
      · simp only [flushLoop]
        rw [if_neg hi]
        exact ⟨QExt_rfl s, [], by simp, List.nil_sublist _⟩


/-- One flush invokes each pending computation at most once: the run-log
segment a flush appends is duplicate-free whenever the pending set is. -/
theorem flush_at_most_once (effs : Effs) (fuel : Nat) (s : RState)
    (h : s.queue.Nodup) :
    ∃ L, (flushCallback effs fuel s).runs = s.runs ++ L ∧ L.Nodup := by
  obtain ⟨hq, L, hruns, hsub⟩ := flushLoop_spec effs fuel 0 s
  refine ⟨L, hruns, ?_⟩
  rw [List.drop_zero] at hsub
  exact hsub.nodup (hq.2 h)

/-! ### Dependency-graph, heap and proxy-table lemmas for the
arbitrary-depth dependency-tracking claim -/

theorem trackerGetL_add_self (t : JSVal) (k : Key) (e : EffId) :
    ∀ tk : Tracker, trackerGetL (trackerAdd tk t k e) t k = addUnique (trackerGetL tk t k) e := by
  intro tk
  induction tk with
  | nil => simp [trackerAdd, trackerGetL, addUnique]
  | cons p rest ih =>
      obtain ⟨pk, pl⟩ := p
      by_cases hp : pk = (t, k)
      · subst hp
        simp [trackerAdd, trackerGetL]
      · simp [trackerAdd, trackerGetL, hp, ih]

theorem trackerGetL_add_otherKey (t : JSVal) (k : Key) (e : EffId) (t2 : JSVal) (k2 : Key)
    (hk : k2 ≠ k) :
    ∀ tk : Tracker, trackerGetL (trackerAdd tk t k e) t2 k2 = trackerGetL tk t2 k2 := by
  have hne2 : (t, k) ≠ (t2, k2) := fun h => hk (congrArg Prod.snd h).symm
  intro tk
  induction tk with
  | nil => simp [trackerAdd, trackerGetL, hne2]
  | cons p rest ih =>
      obtain ⟨pk, pl⟩ := p
      by_cases hp : pk = (t, k)
      · subst hp
        simp [trackerAdd, trackerGetL, hne2]
      · by_cases hq : pk = (t2, k2)
        · subst hq
          simp [trackerAdd, trackerGetL, hp]
        · simp [trackerAdd, trackerGetL, hp, hq, ih]

theorem recGet_recSet_self (k : Key) (v : JSVal) :
    ∀ fs : List (Key × JSVal), recGet (recSet fs k v) k = v := by
  intro fs
  induction fs with
  | nil => simp [recSet, recGet]
  | cons p rest ih =>
      obtain ⟨pk, pv⟩ := p
      by_cases hp : pk = k
      · subst hp
        simp [recSet, recGet]
      · simp [recSet, recGet, hp, ih]

theorem recGet_recSet_other (k : Key) (v : JSVal) (k2 : Key) (hk : k2 ≠ k) :
    ∀ fs : List (Key × JSVal), recGet (recSet fs k v) k2 = recGet fs k2 := by
  have hk2 : k ≠ k2 := fun h => hk h.symm
  intro fs
  induction fs with
  | nil => simp [recSet, recGet, hk2]
  | cons p rest ih =>
      obtain ⟨pk, pv⟩ := p
      by_cases hp : pk = k
      · subst hp
        simp [recSet, recGet, hk2]
      · by_cases hq : pk = k2
        · subst hq
          simp [recSet, recGet, hp]
        · simp [recSet, recGet, hp, hq, ih]

theorem heapFind_setVal (a : Nat) (k : Key) (v : JSVal) :
    ∀ (h : List (Nat × HObj)) (a2 : Nat),
      heapFind (heapSetVal h a k v) a2 =
        if a2 = a then (heapFind h a).map (fun ob => hobjSet ob k v)
        else heapFind h a2 := by
  intro h
  induction h with
  | nil =>
      intro a2
      simp only [heapSetVal, heapFind, Option.map_none']
      rw [ite_self]
  | cons p rest ih =>
      intro a2
      obtain ⟨pa, pob⟩ := p
      by_cases hpa : pa = a
      · subst hpa
        by_cases ha2 : a2 = pa
        · subst ha2
          simp [heapSetVal, heapFind]
        · have ha2s : pa ≠ a2 := fun h => ha2 h.symm
          simp [heapSetVal, heapFind, ha2, ha2s]
      · by_cases ha2 : a2 = pa
        · subst ha2
          have hpas : a2 ≠ a := fun h => hpa h
          simp [heapSetVal, heapFind, hpa, hpas]
        · have ha2s : pa ≠ a2 := fun h => ha2 h.symm
          simp [heapSetVal, heapFind, hpa, ha2s, ih a2]

/-- Reading back the key just written (record object). -/
theorem heapGetVal_set_same (h : List (Nat × HObj)) (a : Nat) (k : Key) (v : JSVal)
    (fs : List (Key × JSVal)) (hf : heapFind h a = some (.record fs)) :
    heapGetVal (heapSetVal h a k v) a k = v := by
  simp [heapGetVal, heapFind_setVal, hf, hobjSet, hobjGet, recGet_recSet_self]

/-- Reading any other key after a record write. -/
theorem heapGetVal_set_other_key (h : List (Nat × HObj)) (a : Nat) (k : Key) (v : JSVal)
    (a2 : Nat) (k2 : Key) (hk : k2 ≠ k)
    (fs : List (Key × JSVal)) (hf : heapFind h a = some (.record fs)) :
    heapGetVal (heapSetVal h a k v) a2 k2 = heapGetVal h a2 k2 := by
  by_cases ha2 : a2 = a
  · subst ha2
    simp [heapGetVal, heapFind_setVal, hf, hobjSet, hobjGet,
      recGet_recSet_other k v k2 hk fs]
  · simp [heapGetVal, heapFind_setVal, ha2]

theorem chainFrom_find_a (bv cv : Int) :
    ∀ (m i j : Nat), i ≤ j → j < i + m →
      heapFind (chainFrom i m bv cv) j = some (.record [("a", .obj (j + 1))]) := by
  intro m
  induction m with
  | zero => intro i j h1 h2; omega
  | succ m ih =>
      intro i j h1 h2
      by_cases hij : i = j
      · subst hij
        simp [chainFrom, heapFind]
      · simp only [chainFrom, heapFind, if_neg hij]
        exact ih (i + 1) j (by omega) (by omega)

theorem chainFrom_find_leaf (bv cv : Int) :
    ∀ (m i : Nat),
      heapFind (chainFrom i m bv cv) (i + m) =
        some (.record [("b", .prim bv), ("c", .prim cv)]) := by
  intro m
  induction m with
  | zero => intro i; simp [chainFrom, heapFind]
  | succ m ih =>
      intro i
      have hne : i ≠ i + (m + 1) := by omega
      simp only [chainFrom, heapFind, if_neg hne]
      have harith : i + (m + 1) = (i + 1) + m := by omega
      rw [harith]
      exact ih (i + 1)

theorem chain_getVal_a (bv cv : Int) (m i j : Nat) (h1 : i ≤ j) (h2 : j < i + m) :
    heapGetVal (chainFrom i m bv cv) j "a" = .obj (j + 1) := by
  simp [heapGetVal, chainFrom_find_a bv cv m i j h1 h2, hobjGet, recGet]

theorem chain_getVal_b (bv cv : Int) (m i : Nat) :
    heapGetVal (chainFrom i m bv cv) (i + m) "b" = .prim bv := by
  simp [heapGetVal, chainFrom_find_leaf bv cv m i, hobjGet, recGet]

theorem chain_getVal_c (bv cv : Int) (m i : Nat) :
    heapGetVal (chainFrom i m bv cv) (i + m) "c" = .prim cv := by
  simp [heapGetVal, chainFrom_find_leaf bv cv m i, hobjGet, recGet]

/-- Allocating a fresh proxy (with any tracker contents) preserves proxy-table
freshness. -/
theorem WF_push (s : RState) (tk : Tracker) (t : JSVal) (h : WF s) :
    WF { s with tracker := tk, proxies := (s.nextProxy, t) :: s.proxies,
                nextProxy := s.nextProxy + 1 } := by
  intro q hq
  rcases List.mem_cons.mp hq with h1 | h2
  · subst h1; simp
  · have := h q h2
    simp only
    omega

/-- A fresh proxy allocation does not disturb the target of any proxy already
present (freshness rules out shadowing). -/
theorem proxyTarget_push (s : RState) (tk : Tracker) (t2 : JSVal) (h : WF s)
    (p : Nat) (t : JSVal) (hp : proxyTarget s p = some t) :
    proxyTarget { s with tracker := tk, proxies := (s.nextProxy, t2) :: s.proxies,
                         nextProxy := s.nextProxy + 1 } p = some t := by
  have hlt : p < s.nextProxy := by
    unfold proxyTarget at hp
    cases hf : s.proxies.find? (fun q => q.1 = p) with
    | none => rw [hf] at hp; exact absurd hp (by simp)
    | some qq =>
        have hqmem := List.mem_of_find?_eq_some hf
        have hqp : qq.1 = p := by
          have := List.find?_some hf
          exact of_decide_eq_true this
        have := h qq hqmem
        omega
  have hne : s.nextProxy ≠ p := by omega
  unfold proxyTarget at hp ⊢
  simp only [List.find?]
  rw [show (decide (s.nextProxy = p)) = false from decide_eq_false hne]
  exact hp

/-- A fresh proxy's target is itself. -/
theorem proxyTarget_push_self (s : RState) (tk : Tracker) (t2 : JSVal) :
    proxyTarget { s with tracker := tk, proxies := (s.nextProxy, t2) :: s.proxies,
                         nextProxy := s.nextProxy + 1 } s.nextProxy = some t2 := by
  unfold proxyTarget
  simp [List.find?]

/-- Splitting a property-chain read at any point. -/
theorem getPath_undef (tr : Option EffId) (fuel : Nat) (s : RState) :
    ∀ (l : List Key), getPath tr fuel s .undefined l = (s, .undefined) := by
  intro l
  cases l <;> rfl

theorem getPath_append (tr : Option EffId) (fuel : Nat) :
    ∀ (l1 l2 : List Key) (s : RState) (v : JSVal),
      getPath tr fuel s v (l1 ++ l2) =
        getPath tr fuel (getPath tr fuel s v l1).1 (getPath tr fuel s v l1).2 l2 := by
  intro l1
  induction l1 with
  | nil => intro l2 s v; rfl
  | cons k ks ih =>
      intro l2 s v
      cases v with
      | prim n => exact (getPath_undef tr fuel s l2).symm
      | undefined => exact (getPath_undef tr fuel s l2).symm
      | obj a => exact (getPath_undef tr fuel s l2).symm
      | proxy pid =>
          cases hpt : proxyTarget s pid with
          | none =>
              simp only [List.cons_append, getPath, hpt]
              exact (getPath_undef tr fuel s l2).symm
          | some t =>
              simp only [List.cons_append, getPath, hpt]
              exact ih l2 (trapGet tr fuel s t k).1 (trapGet tr fuel s t k).2

/-- Walking the `a.a.….a` prefix of depth `m` under a current computation `e`
(the initial run inside `effect`): each step fires the `get` trap, tracks
`(object, "a")` for `e`, and wraps the next raw object in a fresh proxy.  The
walk ends on a proxy of the object at depth `i + m`; the heap, queue, run log
and all other fields are untouched; existing proxies keep their targets; and
the dependent set of every pair whose key is not `"a"` is unchanged. -/
theorem navTracked (e : EffId) :
    ∀ (m : Nat) (fuel : Nat) (s : RState) (i pid : Nat),
      WF s →
      proxyTarget s pid = some (.obj i) →
      (∀ j, i ≤ j → j < i + m → heapGetVal s.heap j "a" = .obj (j + 1)) →
      ∃ s2 q,
        getPath (some e) fuel s (.proxy pid) (List.replicate m "a") = (s2, .proxy q) ∧
        proxyTarget s2 q = some (.obj (i + m)) ∧ WF s2 ∧
        s2.heap = s.heap ∧ s2.queue = s.queue ∧ s2.flushPending = s.flushPending ∧
        s2.microtasks = s.microtasks ∧ s2.notifyLog = s.notifyLog ∧
        s2.runs = s.runs ∧ s2.obs = s.obs ∧ s2.registry = s.registry ∧
        (∀ p t, proxyTarget s p = some t → proxyTarget s2 p = some t) ∧
        (∀ t k, k ≠ "a" → trackerGetL s2.tracker t k = trackerGetL s.tracker t k) := by
  intro m
  induction m with
  | zero =>
      intro fuel s i pid hWF hpt hheap
      refine ⟨s, pid, rfl, ?_, hWF, rfl, rfl, rfl, rfl, rfl, rfl, rfl, rfl,
        fun p t h => h, fun t k hk => rfl⟩
      rw [Nat.add_zero]
      exact hpt
  | succ m ih =>
      intro fuel s i pid hWF hpt hheap
      have hval : heapGetVal s.heap i "a" = .obj (i + 1) :=
        hheap i (Nat.le_refl i) (by omega)
      have htrap : trapGet (some e) fuel s (.obj i) "a" =
          ({ s with tracker := trackerAdd s.tracker (.obj i) "a" e,
                    proxies := (s.nextProxy, .obj (i + 1)) :: s.proxies,
                    nextProxy := s.nextProxy + 1 }, .proxy s.nextProxy) := by
        simp [trapGet, trackIf, wrapIfObj, addProxy, hval, isObjTyped]
      have hWF1 := WF_push s (trackerAdd s.tracker (.obj i) "a" e) (.obj (i + 1)) hWF
      have hpt1 := proxyTarget_push_self s (trackerAdd s.tracker (.obj i) "a" e) (.obj (i + 1))
      have hheap1 : ∀ j, i + 1 ≤ j → j < (i + 1) + m →
          heapGetVal ({ s with
            tracker := trackerAdd s.tracker (.obj i) "a" e,
            proxies := (s.nextProxy, .obj (i + 1)) :: s.proxies,
            nextProxy := s.nextProxy + 1 } : RState).heap j "a" = .obj (j + 1) := by
        intro j h1 h2
        exact hheap j (by omega) (by omega)
      obtain ⟨s2, q, hgp, hq2, hWF2, hheap2, hqueue2, hfl2, hmi2, hnl2, hruns2, hobs2,
        hreg2, hprox2, htrk2⟩ :=
        ih fuel { s with
            tracker := trackerAdd s.tracker (.obj i) "a" e,
            proxies := (s.nextProxy, .obj (i + 1)) :: s.proxies,
            nextProxy := s.nextProxy + 1 } (i + 1) s.nextProxy hWF1 hpt1 hheap1
      refine ⟨s2, q, ?_, ?_, hWF2, hheap2, hqueue2, hfl2, hmi2, hnl2, hruns2, hobs2,
        hreg2, ?_, ?_⟩
      · rw [List.replicate_succ]
        simp only [getPath, hpt, htrap]
        exact hgp
      · have harith : i + (m + 1) = (i + 1) + m := by omega
        rw [harith]
        exact hq2
      · intro p t hp
        exact hprox2 p t
          (proxyTarget_push s (trackerAdd s.tracker (.obj i) "a" e) (.obj (i + 1)) hWF p t hp)
      · intro t k hk
        rw [htrk2 t k hk]
        exact trackerGetL_add_otherKey (.obj i) "a" e t k hk s.tracker

/-- Walking the `a.a.….a` prefix of depth `m` with no current computation
(mutation-side navigation and flush re-runs): as `navTracked`, but the tracker
is entirely unchanged. -/
theorem navUntracked :
    ∀ (m : Nat) (fuel : Nat) (s : RState) (i pid : Nat),
      WF s →
      proxyTarget s pid = some (.obj i) →
      (∀ j, i ≤ j → j < i + m → heapGetVal s.heap j "a" = .obj (j + 1)) →
      ∃ s2 q,
        getPath none fuel s (.proxy pid) (List.replicate m "a") = (s2, .proxy q) ∧
        proxyTarget s2 q = some (.obj (i + m)) ∧ WF s2 ∧
        s2.heap = s.heap ∧ s2.queue = s.queue ∧ s2.flushPending = s.flushPending ∧
        s2.microtasks = s.microtasks ∧ s2.notifyLog = s.notifyLog ∧
        s2.runs = s.runs ∧ s2.obs = s.obs ∧ s2.registry = s.registry ∧
        s2.tracker = s.tracker ∧
        (∀ p t, proxyTarget s p = some t → proxyTarget s2 p = some t) := by
  intro m
  induction m with
  | zero =>
      intro fuel s i pid hWF hpt hheap
      refine ⟨s, pid, rfl, ?_, hWF, rfl, rfl, rfl, rfl, rfl, rfl, rfl, rfl, rfl,
        fun p t h => h⟩
      rw [Nat.add_zero]
      exact hpt
  | succ m ih =>
      intro fuel s i pid hWF hpt hheap
      have hval : heapGetVal s.heap i "a" = .obj (i + 1) :=
        hheap i (Nat.le_refl i) (by omega)
      have htrap : trapGet none fuel s (.obj i) "a" =
          ({ s with proxies := (s.nextProxy, .obj (i + 1)) :: s.proxies,
                    nextProxy := s.nextProxy + 1 }, .proxy s.nextProxy) := by
        simp [trapGet, trackIf, wrapIfObj, addProxy, hval, isObjTyped]
      have hWF1 : WF ({ s with
            proxies := (s.nextProxy, .obj (i + 1)) :: s.proxies,
            nextProxy := s.nextProxy + 1 } : RState) :=
        WF_push s s.tracker (.obj (i + 1)) hWF
      have hpt1 : proxyTarget ({ s with
            proxies := (s.nextProxy, .obj (i + 1)) :: s.proxies,
            nextProxy := s.nextProxy + 1 } : RState) s.nextProxy =
          some (.obj (i + 1)) :=
        proxyTarget_push_self s s.tracker (.obj (i + 1))
      have hheap1 : ∀ j, i + 1 ≤ j → j < (i + 1) + m →
          heapGetVal ({ s with
            proxies := (s.nextProxy, .obj (i + 1)) :: s.proxies,
            nextProxy := s.nextProxy + 1 } : RState).heap j "a" = .obj (j + 1) := by
        intro j h1 h2
        exact hheap j (by omega) (by omega)
      obtain ⟨s2, q, hgp, hq2, hWF2, hheap2, hqueue2, hfl2, hmi2, hnl2, hruns2, hobs2,
        hreg2, htrk2, hprox2⟩ :=
        ih fuel { s with
            proxies := (s.nextProxy, .obj (i + 1)) :: s.proxies,
            nextProxy := s.nextProxy + 1 } (i + 1) s.nextProxy hWF1 hpt1 hheap1
      refine ⟨s2, q, ?_, ?_, hWF2, hheap2, hqueue2, hfl2, hmi2, hnl2, hruns2, hobs2,
        hreg2, htrk2, ?_⟩
      · rw [List.replicate_succ]
        simp only [getPath, hpt, htrap]
        exact hgp
      · have harith : i + (m + 1) = (i + 1) + m := by omega
        rw [harith]
        exact hq2
      · intro p t hp
        exact hprox2 p t
          (proxyTarget_push s s.tracker (.obj (i + 1)) hWF p t hp)

/-! ### Claim theorems -/

/-- Unfolding helpers shared by the arbitrary-depth proof. -/
theorem registerEffect_singleRead (effs : Effs) (s : RState) (e : EffId) (p : List Key)
    (spec : EffSpec) (hspec : spec = ⟨[Act.read p], false⟩)
    (hf : effs.find? (fun q => q.1 = e) = some (e, spec))
    (s2 : RState) (v : JSVal)
    (hr : readRootPath (some e) { s with registry := s.registry ++ [e] } p = (s2, v)) :
    registerEffect effs s e =
      { s2 with runs := s2.runs ++ [e], obs := s2.obs ++ [(e, [v])] } := by
  subst hspec
  simp [registerEffect, runWrapped, runEffectOnce, hf, runActs, hr]

theorem runWrapped_singleRead (effs : Effs) (s : RState) (e : EffId) (p : List Key)
    (spec : EffSpec) (hspec : spec = ⟨[Act.read p], false⟩)
    (hf : effs.find? (fun q => q.1 = e) = some (e, spec))
    (s2 : RState) (v : JSVal) (hr : readRootPath none s p = (s2, v)) :
    (runWrapped effs none s e).1 =
      { s2 with runs := s2.runs ++ [e], obs := s2.obs ++ [(e, [v])] } := by
  subst hspec
  simp [runWrapped, runEffectOnce, hf, runActs, hr]

theorem flushLoop_step (effs : Effs) (fuel : Nat) (s : RState) (i : Nat)
    (h : i < s.queue.length) :
    flushLoop effs (fuel + 1) s i =
      flushLoop effs fuel (runWrapped effs none s (s.queue.getD i 0)).1 (i + 1) := by
  simp only [flushLoop]
  rw [if_pos h, show (runWrapped effs none s (s.queue.getD i 0)).2 = false from rfl,
    if_neg Bool.false_ne_true]

theorem flushLoop_stop (effs : Effs) (fuel : Nat) (s : RState) (i : Nat)
    (h : ¬ (i < s.queue.length)) : flushLoop effs fuel s i = s := by
  cases fuel with
  | zero => rfl
  | succ f =>
      simp only [flushLoop]
      rw [if_neg h]

theorem flushCallback_eq (effs : Effs) (fuel : Nat) (s : RState) :
    flushCallback effs fuel s =
      { flushLoop effs fuel s 0 with queue := [], flushPending := false } := rfl

theorem runStep_micro_flush (effs : Effs) (s : RState) (h : s.flushPending = true) :
    runStep effs s .micro = flushCallback effs FUEL s := by
  simp [runStep, h]

theorem runStep_micro_skip (effs : Effs) (s : RState) (h : s.flushPending = false) :
    runStep effs s .micro = s := by
  simp [runStep, h]

/-- C1, confirmed.  Precise dependency tracking at arbitrary nesting depth:
for the reactive state `{a: {a: … {b: bv, c: cv}}}` of any depth `n` and a
computation that reads only the path `a.….a.b`, a write of a different value
to that path re-runs the computation (run log `[1, 1]`: the initial run and
exactly one re-run), while a write of any value to the sibling path `a.….a.c`
of the same state causes no re-run (run log stays `[1]`). -/
theorem C1_precise_dependency_tracking (n : Nat) (bv cv bv' cv' : Int) (hb : bv' ≠ bv) :
    (runSteps (chainEffs n) (initState (chainFrom 0 n bv cv))
      [.reg 1, .write (chainPath n ++ ["b"]) (.prim bv'), .micro]).runs = [1, 1] ∧
    (runSteps (chainEffs n) (initState (chainFrom 0 n bv cv))
      [.reg 1, .write (chainPath n ++ ["c"]) (.prim cv'), .micro]).runs = [1] := by
  have hfind : (chainEffs n).find? (fun p => p.1 = 1) =
      some (1, ⟨[Act.read (chainPath n ++ ["b"])], false⟩) := rfl
  have hfleaf : heapFind (chainFrom 0 n bv cv) n =
      some (.record [("b", .prim bv), ("c", .prim cv)]) := by
    have := chainFrom_find_leaf bv cv n 0
    rwa [Nat.zero_add] at this
  -- Registration: the initial tracked run of effect 1.
  have hWF0 : WF ({ initState (chainFrom 0 n bv cv) with
      registry := (initState (chainFrom 0 n bv cv)).registry ++ [1] } : RState) := by
    intro q hq
    have hq2 : q = (0, JSVal.obj 0) := List.mem_singleton.mp hq
    rw [hq2]
    exact Nat.zero_lt_one
  have hpt0 : proxyTarget ({ initState (chainFrom 0 n bv cv) with
      registry := (initState (chainFrom 0 n bv cv)).registry ++ [1] } : RState) 0 =
      some (.obj 0) := rfl
  have hheap0 : ∀ j, 0 ≤ j → j < 0 + n →
      heapGetVal ({ initState (chainFrom 0 n bv cv) with
        registry := (initState (chainFrom 0 n bv cv)).registry ++ [1] } : RState).heap
        j "a" = .obj (j + 1) := by
    intro j h1 h2
    exact chain_getVal_a bv cv n 0 j h1 h2
  obtain ⟨sN0, q0, hgp0, hq0, hWFN0, hheapN0, hqueueN0, hflN0, hmiN0, hnlN0, hrunsN0,
    hobsN0, hregN0, hproxN0, htrkN0⟩ := navTracked 1 n FUEL _ 0 0 hWF0 hpt0 hheap0
  have hq0n : proxyTarget sN0 q0 = some (.obj n) := by rwa [Nat.zero_add] at hq0
  have hvb0 : heapGetVal sN0.heap n "b" = .prim bv := by
    rw [hheapN0]
    show heapGetVal (chainFrom 0 n bv cv) n "b" = .prim bv
    have := chain_getVal_b bv cv n 0
    rwa [Nat.zero_add] at this
  have hb1 : getPath (some 1) FUEL sN0 (.proxy q0) ["b"] =
      ({ sN0 with tracker := trackerAdd sN0.tracker (.obj n) "b" 1 }, .prim bv) := by
    simp [getPath, hq0n, trapGet, trackIf, wrapIfObj, isObjTyped, hvb0]
  have hread0 : readRootPath (some 1) ({ initState (chainFrom 0 n bv cv) with
      registry := (initState (chainFrom 0 n bv cv)).registry ++ [1] } : RState)
      (List.replicate n "a" ++ ["b"]) =
      ({ sN0 with tracker := trackerAdd sN0.tracker (.obj n) "b" 1 }, .prim bv) := by
    show getPath (some 1) FUEL _ (.proxy 0) (List.replicate n "a" ++ ["b"]) = _
    rw [getPath_append, hgp0]
    exact hb1
  have hregEq := registerEffect_singleRead (chainEffs n) (initState (chainFrom 0 n bv cv))
    1 (chainPath n ++ ["b"]) _ rfl hfind _ _ hread0
  -- Facts about the registered state.
  have hWFR : WF (registerEffect (chainEffs n) (initState (chainFrom 0 n bv cv)) 1) := by
    rw [hregEq]; exact hWFN0
  have hptR : proxyTarget
      (registerEffect (chainEffs n) (initState (chainFrom 0 n bv cv)) 1) 0 =
      some (.obj 0) := by
    rw [hregEq]; exact hproxN0 0 (.obj 0) hpt0
  have hheapR : (registerEffect (chainEffs n) (initState (chainFrom 0 n bv cv)) 1).heap =
      chainFrom 0 n bv cv := by
    rw [hregEq]; exact hheapN0
  have hqR : (registerEffect (chainEffs n) (initState (chainFrom 0 n bv cv)) 1).queue =
      [] := by
    rw [hregEq]; exact hqueueN0
  have hflR : (registerEffect (chainEffs n)
      (initState (chainFrom 0 n bv cv)) 1).flushPending = false := by
    rw [hregEq]; exact hflN0
  have hrunsR : (registerEffect (chainEffs n) (initState (chainFrom 0 n bv cv)) 1).runs =
      [1] := by
    rw [hregEq]
    show sN0.runs ++ [1] = [1]
    rw [hrunsN0]
    rfl
  have htrkbR : trackerGetL
      (registerEffect (chainEffs n) (initState (chainFrom 0 n bv cv)) 1).tracker
      (.obj n) "b" = [1] := by
    rw [hregEq]
    show trackerGetL (trackerAdd sN0.tracker (.obj n) "b" 1) (.obj n) "b" = [1]
    rw [trackerGetL_add_self, htrkN0 (.obj n) "b" (by decide)]
    rfl
  have htrkcR : trackerGetL
      (registerEffect (chainEffs n) (initState (chainFrom 0 n bv cv)) 1).tracker
      (.obj n) "c" = [] := by
    rw [hregEq]
    show trackerGetL (trackerAdd sN0.tracker (.obj n) "b" 1) (.obj n) "c" = []
    rw [trackerGetL_add_otherKey (.obj n) "b" 1 (.obj n) "c" (by decide),
      htrkN0 (.obj n) "c" (by decide)]
    rfl
  -- Untracked navigation to the innermost object, shared by both writes.
  have hheapRa : ∀ j, 0 ≤ j → j < 0 + n →
      heapGetVal (registerEffect (chainEffs n) (initState (chainFrom 0 n bv cv)) 1).heap
        j "a" = .obj (j + 1) := by
    intro j h1 h2
    rw [hheapR]
    exact chain_getVal_a bv cv n 0 j h1 h2
  obtain ⟨sN1, q1, hgp1, hq1, hWFN1, hheapN1, hqueueN1, hflN1, hmiN1, hnlN1, hrunsN1,
    hobsN1, hregN1, htrkN1, hproxN1⟩ := navUntracked n FUEL _ 0 0 hWFR hptR hheapRa
  have hq1n : proxyTarget sN1 q1 = some (.obj n) := by rwa [Nat.zero_add] at hq1
  have hheapN1C : sN1.heap = chainFrom 0 n bv cv := hheapN1.trans hheapR
  have hfN1 : heapFind sN1.heap n = some (.record [("b", .prim bv), ("c", .prim cv)]) := by
    rw [hheapN1C]; exact hfleaf
  have hvb1 : heapGetVal sN1.heap n "b" = .prim bv := by
    rw [hheapN1C]
    have := chain_getVal_b bv cv n 0
    rwa [Nat.zero_add] at this
  have hvc1 : heapGetVal sN1.heap n "c" = .prim cv := by
    rw [hheapN1C]
    have := chain_getVal_c bv cv n 0
    rwa [Nat.zero_add] at this
  have hq1e : sN1.queue = [] := hqueueN1.trans hqR
  have hfl1e : sN1.flushPending = false := hflN1.trans hflR
  have hruns1e : sN1.runs = [1] := hrunsN1.trans hrunsR
  have htrkb1 : trackerGetL sN1.tracker (.obj n) "b" = [1] := by
    rw [htrkN1]; exact htrkbR
  have htrkc1 : trackerGetL sN1.tracker (.obj n) "c" = [] := by
    rw [htrkN1]; exact htrkcR
  constructor
  · -- write to a.….a.b with a different value, then the flush
    have hWeq : writeRootPath none
        (registerEffect (chainEffs n) (initState (chainFrom 0 n bv cv)) 1)
        (chainPath n ++ ["b"]) (.prim bv') =
        { sN1 with
          heap := heapSetVal sN1.heap n "b" (.prim bv'),
          queue := [1],
          notifyLog := sN1.notifyLog ++ [(.obj n, "b")],
          flushPending := true,
          microtasks := sN1.microtasks + 1 } := by
      have hW1 : writeRootPath none
          (registerEffect (chainEffs n) (initState (chainFrom 0 n bv cv)) 1)
          (chainPath n ++ ["b"]) (.prim bv') =
          notify { sN1 with heap := heapSetVal sN1.heap n "b" (.prim bv') }
            (.obj n) "b" := by
        simp only [writeRootPath, chainPath, List.getLast?_concat, List.dropLast_concat]
        rw [hgp1]
        show setOnVal none sN1 (.proxy q1) "b" (.prim bv') = _
        simp only [setOnVal, hq1n]
        simp [trapSet, hvb1, isObjTyped, hb]
      rw [hW1]
      simp [notify, htrkb1, hq1e, hfl1e, addUnique]
    have hqW : (writeRootPath none
        (registerEffect (chainEffs n) (initState (chainFrom 0 n bv cv)) 1)
        (chainPath n ++ ["b"]) (.prim bv')).queue = [1] := by
      rw [hWeq]
    have hflW : (writeRootPath none
        (registerEffect (chainEffs n) (initState (chainFrom 0 n bv cv)) 1)
        (chainPath n ++ ["b"]) (.prim bv')).flushPending = true := by
      rw [hWeq]
    -- the flushed re-read of the path
    have hWFW : WF (writeRootPath none
        (registerEffect (chainEffs n) (initState (chainFrom 0 n bv cv)) 1)
        (chainPath n ++ ["b"]) (.prim bv')) := by
      rw [hWeq]; exact hWFN1
    have hptW : proxyTarget (writeRootPath none
        (registerEffect (chainEffs n) (initState (chainFrom 0 n bv cv)) 1)
        (chainPath n ++ ["b"]) (.prim bv')) 0 = some (.obj 0) := by
      rw [hWeq]; exact hproxN1 0 (.obj 0) hptR
    have hheapWa : ∀ j, 0 ≤ j → j < 0 + n →
        heapGetVal (writeRootPath none
          (registerEffect (chainEffs n) (initState (chainFrom 0 n bv cv)) 1)
          (chainPath n ++ ["b"]) (.prim bv')).heap j "a" = .obj (j + 1) := by
      intro j h1 h2
      rw [hWeq]
      show heapGetVal (heapSetVal sN1.heap n "b" (.prim bv')) j "a" = _
      rw [heapGetVal_set_other_key sN1.heap n "b" (.prim bv') j "a" (by decide) _ hfN1,
        hheapN1C]
      exact chain_getVal_a bv cv n 0 j h1 h2
    obtain ⟨sF, qF, hgpF, hqF, hWFF, hheapF, hqueueF, hflF, hmiF, hnlF, hrunsF,
      hobsF, hregF, htrkF, hproxF⟩ := navUntracked n FUEL _ 0 0 hWFW hptW hheapWa
    have hqFn : proxyTarget sF qF = some (.obj n) := by rwa [Nat.zero_add] at hqF
    have hvbF : heapGetVal sF.heap n "b" = .prim bv' := by
      rw [hheapF, hWeq]
      exact heapGetVal_set_same sN1.heap n "b" (.prim bv') _ hfN1
    have hbF : getPath none FUEL sF (.proxy qF) ["b"] = (sF, .prim bv') := by
      simp [getPath, hqFn, trapGet, trackIf, wrapIfObj, isObjTyped, hvbF]
    have hreadF : readRootPath none (writeRootPath none
        (registerEffect (chainEffs n) (initState (chainFrom 0 n bv cv)) 1)
        (chainPath n ++ ["b"]) (.prim bv')) (List.replicate n "a" ++ ["b"]) =
        (sF, .prim bv') := by
      show getPath none FUEL _ (.proxy 0) (List.replicate n "a" ++ ["b"]) = _
      rw [getPath_append, hgpF]
      exact hbF
    have hrw1 := runWrapped_singleRead (chainEffs n) (writeRootPath none
        (registerEffect (chainEffs n) (initState (chainFrom 0 n bv cv)) 1)
        (chainPath n ++ ["b"]) (.prim bv')) 1 (chainPath n ++ ["b"]) _ rfl hfind _ _ hreadF
    have hqF2 : sF.queue = [1] := hqueueF.trans hqW
    have hrunsFe : sF.runs = [1] := by
      rw [hrunsF, hWeq]
      exact hruns1e
    -- evaluate the microtask
    simp only [runSteps]
    rw [show runStep (chainEffs n) (initState (chainFrom 0 n bv cv)) (Step.reg 1) =
      registerEffect (chainEffs n) (initState (chainFrom 0 n bv cv)) 1 from rfl]
    rw [show runStep (chainEffs n)
        (registerEffect (chainEffs n) (initState (chainFrom 0 n bv cv)) 1)
        (Step.write (chainPath n ++ ["b"]) (JSVal.prim bv')) =
      writeRootPath none
        (registerEffect (chainEffs n) (initState (chainFrom 0 n bv cv)) 1)
        (chainPath n ++ ["b"]) (JSVal.prim bv') from rfl]
    rw [runStep_micro_flush (chainEffs n) _ hflW, flushCallback_eq]
    show (flushLoop (chainEffs n) FUEL (writeRootPath none
      (registerEffect (chainEffs n) (initState (chainFrom 0 n bv cv)) 1)
      (chainPath n ++ ["b"]) (.prim bv')) 0).runs = [1, 1]
    have hlt1 : 0 < (writeRootPath none
        (registerEffect (chainEffs n) (initState (chainFrom 0 n bv cv)) 1)
        (chainPath n ++ ["b"]) (.prim bv')).queue.length := by
      rw [hqW]; decide
    have hgd1 : (writeRootPath none
        (registerEffect (chainEffs n) (initState (chainFrom 0 n bv cv)) 1)
        (chainPath n ++ ["b"]) (.prim bv')).queue.getD 0 0 = 1 := by
      rw [hqW]
      decide
    rw [show FUEL = 63 + 1 from rfl, flushLoop_step _ 63 _ 0 hlt1, hgd1, hrw1]
    have hstop : ¬ (1 < ({ sF with
        runs := sF.runs ++ [1],
        obs := sF.obs ++ [(1, [JSVal.prim bv'])] } : RState).queue.length) := by
      show ¬ (1 < sF.queue.length)
      rw [hqF2]
      decide
    rw [flushLoop_stop _ 63 _ 1 hstop]
    show sF.runs ++ [1] = [1, 1]
    rw [hrunsFe]
    rfl
  · -- write to the unrelated sibling a.….a.c: no dependents, no re-run
    simp only [runSteps]
    rw [show runStep (chainEffs n) (initState (chainFrom 0 n bv cv)) (Step.reg 1) =
      registerEffect (chainEffs n) (initState (chainFrom 0 n bv cv)) 1 from rfl]
    rw [show runStep (chainEffs n)
        (registerEffect (chainEffs n) (initState (chainFrom 0 n bv cv)) 1)
        (Step.write (chainPath n ++ ["c"]) (JSVal.prim cv')) =
      writeRootPath none
        (registerEffect (chainEffs n) (initState (chainFrom 0 n bv cv)) 1)
        (chainPath n ++ ["c"]) (JSVal.prim cv') from rfl]
    by_cases hcv : (JSVal.prim cv' : JSVal) = .prim cv
    · -- no-op write: the value did not change, nothing is notified
      have hWeqc : writeRootPath none
          (registerEffect (chainEffs n) (initState (chainFrom 0 n bv cv)) 1)
          (chainPath n ++ ["c"]) (.prim cv') =
          { sN1 with heap := heapSetVal sN1.heap n "c" (.prim cv') } := by
        simp only [writeRootPath, chainPath, List.getLast?_concat, List.dropLast_concat]
        rw [hgp1]
        show setOnVal none sN1 (.proxy q1) "c" (.prim cv') = _
        simp only [setOnVal, hq1n]
        simp [trapSet, hvc1, isObjTyped, hcv]
      have hflc : (writeRootPath none
          (registerEffect (chainEffs n) (initState (chainFrom 0 n bv cv)) 1)
          (chainPath n ++ ["c"]) (.prim cv')).flushPending = false := by
        rw [hWeqc]
        show sN1.flushPending = false
        exact hfl1e
      rw [runStep_micro_skip (chainEffs n) _ hflc, hWeqc]
      show sN1.runs = [1]
      exact hruns1e
    · -- changed value on c: notify fires but the dependent set of (obj n, c)
      -- is empty, so nothing is enqueued and the flush runs nothing
      have hWeqc : writeRootPath none
          (registerEffect (chainEffs n) (initState (chainFrom 0 n bv cv)) 1)
          (chainPath n ++ ["c"]) (.prim cv') =
          { sN1 with
            heap := heapSetVal sN1.heap n "c" (.prim cv'),
            queue := sN1.queue,
            notifyLog := sN1.notifyLog ++ [(.obj n, "c")],
            flushPending := true,
            microtasks := sN1.microtasks + 1 } := by
        have hW1 : writeRootPath none
            (registerEffect (chainEffs n) (initState (chainFrom 0 n bv cv)) 1)
            (chainPath n ++ ["c"]) (.prim cv') =
            notify { sN1 with heap := heapSetVal sN1.heap n "c" (.prim cv') }
              (.obj n) "c" := by
          simp only [writeRootPath, chainPath, List.getLast?_concat, List.dropLast_concat]
          rw [hgp1]
          show setOnVal none sN1 (.proxy q1) "c" (.prim cv') = _
          simp only [setOnVal, hq1n]
          simp [trapSet, hvc1, isObjTyped, hcv]
        rw [hW1]
        simp [notify, htrkc1, hfl1e]
      have hflc : (writeRootPath none
          (registerEffect (chainEffs n) (initState (chainFrom 0 n bv cv)) 1)
          (chainPath n ++ ["c"]) (.prim cv')).flushPending = true := by
        rw [hWeqc]
      have hqc : ¬ (0 < (writeRootPath none
          (registerEffect (chainEffs n) (initState (chainFrom 0 n bv cv)) 1)
          (chainPath n ++ ["c"]) (.prim cv')).queue.length) := by
        rw [hWeqc]
        show ¬ (0 < sN1.queue.length)
        rw [hq1e]
        decide
      rw [runStep_micro_flush (chainEffs n) _ hflc, flushCallback_eq]
      show (flushLoop (chainEffs n) FUEL (writeRootPath none
        (registerEffect (chainEffs n) (initState (chainFrom 0 n bv cv)) 1)
        (chainPath n ++ ["c"]) (.prim cv')) 0).runs = [1]
      rw [flushLoop_stop _ FUEL _ 0 hqc, hWeqc]
      show sN1.runs = [1]
      exact hruns1e

/-- Witness for `C1_precise_dependency_tracking` at depth 1 with concrete
values. -/
theorem C1_witness :
    ((2 : Int) ≠ 1) ∧
    ((runSteps (chainEffs 1) (initState (chainFrom 0 1 1 5))
      [.reg 1, .write (chainPath 1 ++ ["b"]) (.prim 2), .micro]).runs = [1, 1] ∧
    (runSteps (chainEffs 1) (initState (chainFrom 0 1 1 5))
      [.reg 1, .write (chainPath 1 ++ ["c"]) (.prim 7), .micro]).runs = [1]) :=
  ⟨by decide, C1_precise_dependency_tracking 1 1 5 2 7 (by decide)⟩

/-! ### Claim theorems (concrete scenarios) -/

/-- C2, counterexample.  The claim states that reading the same nested
structured property twice returns the same wrapper identity both times.  In
the state `{a: {b: 1}}`, two consecutive reads of `state.a` outside any
computation return distinct proxies: `createProxy` (state.js line 234) is
called afresh on every read and there is no wrapper cache.  This refutes the
claim at a concrete input. -/
theorem C2_counterexample :
    (readRootPath none c2S ["a"]).2 ≠
      (readRootPath none (readRootPath none c2S ["a"]).1 ["a"]).2 := by decide

/-- C2, amended.  Reading the same nested structured property twice returns
two distinct wrapper identities — a fresh proxy per read — although both
wrappers have the same underlying target object: there is no per-target
wrapper cache keyed by object identity. -/
theorem C2_fresh_wrapper_per_read :
    (readRootPath none c2S ["a"]).2 = .proxy 1 ∧
    (readRootPath none (readRootPath none c2S ["a"]).1 ["a"]).2 = .proxy 2 ∧
    proxyTarget (readRootPath none (readRootPath none c2S ["a"]).1 ["a"]).1 1 =
      some (.obj 1) ∧
    proxyTarget (readRootPath none (readRootPath none c2S ["a"]).1 ["a"]).1 2 =
      some (.obj 1) := by decide

/-- C3, counterexample.  The claim states that a computation enqueued while a
flush is running is placed in a fresh pending set processed by a new deferred
flush, never run inside the current flush.  In the scenario below, at the
moment the (single) scheduled flush starts, the pending set is `[1]`;
computation 1 increments `y` during the flush, which enqueues computation 2
into the *same* `NOTIFICATION_QUEUE` being iterated (JS `Set.forEach` visits
elements added during iteration), so computation 2 runs inside that same
flush, and no second microtask is ever scheduled. -/
theorem C3_counterexample :
    (runSteps effs3b s3b [.reg 1, .reg 2]).queue = [1] ∧
    (runSteps effs3b s3b [.reg 1, .reg 2]).microtasks = 1 ∧
    (runSteps effs3b s3b [.reg 1, .reg 2, .micro]).runs = [1, 2, 1, 2] ∧
    (runSteps effs3b s3b [.reg 1, .reg 2, .micro]).microtasks = 1 := by decide

/-- C3, amended.  One flush invokes each pending computation at most once no
matter how many of its tracked dependencies changed in the synchronous burst
(first conjunct, for every duplicate-free pending set; second conjunct, the
concrete two-property burst re-running its computation exactly once) — but a
computation enqueued while a flush is running is added to the *same* pending
set being iterated and is invoked later in the same flush (JS `Set.forEach`
visits elements appended during iteration), with no new deferred flush
scheduled: in the concrete scenario, effect 2 is absent from the pending set
when the single flush starts, yet runs inside it, and only one microtask is
ever scheduled. -/
theorem C3_flush_dedup_same_set (effs : Effs) (fuel : Nat) (s : RState)
    (h : s.queue.Nodup) :
    (∃ L, (flushCallback effs fuel s).runs = s.runs ++ L ∧ L.Nodup) ∧
    (runSteps effs3a s3a
      [.reg 1, .write ["x"] (.prim 10), .write ["y"] (.prim 20), .micro]).runs =
      [1, 1] ∧
    ((runSteps effs3b s3b [.reg 1, .reg 2]).queue = [1] ∧
     (runSteps effs3b s3b [.reg 1, .reg 2, .micro]).runs = [1, 2, 1, 2] ∧
     (runSteps effs3b s3b [.reg 1, .reg 2, .micro]).microtasks = 1) :=
  ⟨flush_at_most_once effs fuel s h, by decide, by decide⟩

/-- Witness for `C3_flush_dedup_same_set` at a concrete duplicate-free pending
set. -/
theorem C3_witness :
    (initState [(0, HObj.record [("x", JSVal.prim 1)])]).queue.Nodup ∧
    ((∃ L, (flushCallback [] 3
        (initState [(0, HObj.record [("x", JSVal.prim 1)])])).runs =
        (initState [(0, HObj.record [("x", JSVal.prim 1)])]).runs ++ L ∧ L.Nodup) ∧
     (runSteps effs3a s3a
       [.reg 1, .write ["x"] (.prim 10), .write ["y"] (.prim 20), .micro]).runs =
       [1, 1] ∧
     ((runSteps effs3b s3b [.reg 1, .reg 2]).queue = [1] ∧
      (runSteps effs3b s3b [.reg 1, .reg 2, .micro]).runs = [1, 2, 1, 2] ∧
      (runSteps effs3b s3b [.reg 1, .reg 2, .micro]).microtasks = 1)) :=
  ⟨by decide, C3_flush_dedup_same_set [] 3
    (initState [(0, HObj.record [("x", JSVal.prim 1)])]) (by decide)⟩

/-- C4, counterexample.  The claim states that `push` with `k` items
invalidates exactly the keys `{n, …, n+k-1}` and `length`.  Starting from
`[1, 2]` with a computation that reads only index 2, `push(3)` notifies only
`length` (the `arrayHandlers.push` branch, state.js line 22; the
index-notifying wrapper at lines 96-102 is unreachable), so the computation
is never re-run even though index 2 became newly occupied. -/
theorem C4_counterexample :
    (runSteps effs4x s4 [.reg 1, .push [.prim 3], .micro]).notifyLog =
      [(.obj 0, "length")] ∧
    (runSteps effs4x s4 [.reg 1, .push [.prim 3], .micro]).runs = [1] := by decide

/-- C4, amended.  `push` notifies only the key `length`, not the newly
occupied indices; the concrete scenario of the claim nevertheless holds as
stated because its computation also reads `length`: from `[1, 2]` with a
computation reading index 2 and `length`, `push(3)` causes exactly one re-run
after which the computation observes index 2 = 3 and length = 3. -/
theorem C4_push_notifies_length_only :
    (runSteps effs4 s4 [.reg 1, .push [.prim 3], .micro]).notifyLog =
      [(.obj 0, "length")] ∧
    (runSteps effs4 s4 [.reg 1, .push [.prim 3], .micro]).runs = [1, 1] ∧
    (runSteps effs4 s4 [.reg 1, .push [.prim 3], .micro]).obs =
      [(1, [.undefined, .prim 2]), (1, [.prim 3, .prim 3])] := by decide

/-- C5, counterexample.  The claim states that `shift` invalidates `length`
and every remaining index.  On `[1, 2, 3]` with a computation reading only
index 1, `shift` notifies only `length` and `'0'` (`arrayHandlers.shift`,
state.js lines 25-28), so the computation never re-runs even though the value
at index 1 changed from 2 to 3. -/
theorem C5_counterexample :
    (runSteps effs5x s5 [.reg 1, .shift, .micro]).notifyLog =
      [(.obj 0, "length"), (.obj 0, "0")] ∧
    (runSteps effs5x s5 [.reg 1, .shift, .micro]).runs = [1] := by decide

/-- C5, amended.  `shift` notifies only `length` and index `'0'`, not every
remaining index; the concrete scenario of the claim holds as stated: on
`[1, 2, 3]` with a computation reading index 0, `shift` re-runs the
computation, which then observes index 0 = 2. -/
theorem C5_shift_notifies_length_and_zero :
    (runSteps effs5 s5 [.reg 1, .shift, .micro]).notifyLog =
      [(.obj 0, "length"), (.obj 0, "0")] ∧
    (runSteps effs5 s5 [.reg 1, .shift, .micro]).runs = [1, 1] ∧
    (runSteps effs5 s5 [.reg 1, .shift, .micro]).obs =
      [(1, [.prim 1]), (1, [.prim 2])] := by decide

/-- C6, counterexample.  The claim states that writing a value equal (by
identity) to the current value of a key enqueues zero computations.  In the
state `{k: o}` with a computation depending on `k`, writing the very same raw
object `o` back to `k` enqueues that computation: the `set` trap wraps the
object in a fresh proxy *before* the `oldValue !== value` comparison
(state.js lines 244-251), so the comparison never sees equal values for
structured writes. -/
theorem C6_counterexample :
    (runSteps effs6 s6 [.reg 1, .write ["k"] (.obj 1)]).queue = [1] ∧
    (runSteps effs6 s6 [.reg 1, .write ["k"] (.obj 1)]).notifyLog =
      [(.obj 0, "k")] := by decide

/-- C6, amended.  Writing a *primitive* value equal to the current value of a
key through the reactive view calls `notify` zero times and enqueues zero
computations (first conjunct, for every state: the queue, the notify log and
the run log are untouched).  Writing a *structured* value — even the very
same object currently stored — always notifies: the `set` trap wraps it in a
fresh proxy before the `oldValue !== value` comparison (state.js line 245),
so the comparison never succeeds for object values (second conjunct, the
concrete scenario). -/
theorem C6_noop_write (s : RState) (a : Nat) (k : Key) (v : JSVal)
    (h0 : proxyTarget s 0 = some (.obj a))
    (h1 : heapGetVal s.heap a k = v)
    (h2 : isObjTyped v = false) :
    ((writeRootPath none s [k] v).queue = s.queue ∧
     (writeRootPath none s [k] v).notifyLog = s.notifyLog ∧
     (writeRootPath none s [k] v).runs = s.runs) ∧
    ((runSteps effs6 s6 [.reg 1, .write ["k"] (.obj 1)]).queue = [1] ∧
     (runSteps effs6 s6 [.reg 1, .write ["k"] (.obj 1)]).notifyLog =
       [(.obj 0, "k")]) := by
  have hset : writeRootPath none s [k] v = trapSet none FUEL s (.obj a) k v := by
    simp [writeRootPath, getPath, setOnVal, h0]
  have htrap : trapSet none FUEL s (.obj a) k v =
      { s with heap := heapSetVal s.heap a k v } := by
    simp [trapSet, h1, h2]
  rw [hset, htrap]
  exact ⟨⟨rfl, rfl, rfl⟩, by decide, by decide⟩

/-- Witness for `C6_noop_write`: the state `{x: 1}` with a primitive no-op
write of `1` to `x`. -/
theorem C6_witness :
    (proxyTarget s7 0 = some (.obj 0) ∧
     heapGetVal s7.heap 0 "x" = .prim 1 ∧
     isObjTyped (.prim 1) = false) ∧
    (((writeRootPath none s7 ["x"] (.prim 1)).queue = s7.queue ∧
      (writeRootPath none s7 ["x"] (.prim 1)).notifyLog = s7.notifyLog ∧
      (writeRootPath none s7 ["x"] (.prim 1)).runs = s7.runs) ∧
     ((runSteps effs6 s6 [.reg 1, .write ["k"] (.obj 1)]).queue = [1] ∧
      (runSteps effs6 s6 [.reg 1, .write ["k"] (.obj 1)]).notifyLog =
        [(.obj 0, "k")])) :=
  ⟨⟨by decide, by decide, by decide⟩,
    C6_noop_write s7 0 "x" (.prim 1) (by decide) (by decide) (by decide)⟩

/-- C7, counterexample.  The claim states that the error of a throwing
computation is forwarded to the error channel, which receives exactly one
error.  In the scenario below, computation 1 throws during its initial run
and again during the flush re-run, yet the flush-level error channel
(`console.error`, state.js line 188) receives zero errors: `wrappedFn`
(lines 296-301) already swallowed both errors in its empty catch. -/
theorem C7_counterexample :
    (runSteps effs7 s7 [.reg 1, .reg 2, .write ["x"] (.prim 2), .micro]).swallowed
      = 2 ∧
    (runSteps effs7 s7 [.reg 1, .reg 2, .write ["x"] (.prim 2), .micro]).errorChannel
      = 0 := by decide

/-- C7, amended.  An error thrown by a computation is caught by the empty
catch of its `wrappedFn` and silently swallowed — it is never rethrown to the
triggering mutation, but it is also never forwarded: the error channel
receives zero errors.  Sibling computations pending in the same flush still
run and observe the new value, and the throwing computation is neither
removed nor disabled (it re-runs in the flush). -/
theorem C7_errors_swallowed :
    (runSteps effs7 s7 [.reg 1, .reg 2, .write ["x"] (.prim 2), .micro]).runs =
      [1, 2, 1, 2] ∧
    (runSteps effs7 s7 [.reg 1, .reg 2, .write ["x"] (.prim 2), .micro]).obs =
      [(1, [.prim 1]), (2, [.prim 1]), (1, [.prim 2]), (2, [.prim 2])] ∧
    (runSteps effs7 s7 [.reg 1, .reg 2, .write ["x"] (.prim 2), .micro]).swallowed
      = 2 ∧
    (runSteps effs7 s7 [.reg 1, .reg 2, .write ["x"] (.prim 2), .micro]).errorChannel
      = 0 := by decide

/-- C8, counterexample.  The claim states that read-only iteration or
inspection operations such as `map` perform no invalidation.  On `[1, 2]`
with a computation depending on index 0, calling `map` through the proxy hits
the conservative `default` case of `createArrayMethodWrapper` (state.js
lines 154-159): it notifies `length` and every index, enqueues the dependent
computation, and the deferred flush re-runs it. -/
theorem C8_counterexample :
    (runSteps effs8 s8 [.reg 1, .mapCall]).notifyLog =
      [(.obj 0, "length"), (.obj 0, "0"), (.obj 0, "1")] ∧
    (runSteps effs8 s8 [.reg 1, .mapCall]).queue = [1] ∧
    (runSteps effs8 s8 [.reg 1, .mapCall, .micro]).runs = [1, 1] := by decide

/-- C8, amended.  Only iteration via `Symbol.iterator` passes through without
invalidation (its `arrayHandlers` entry performs no notification, state.js
lines 67-70).  Every other read-only method (`map`, `filter`, `slice`,
`indexOf`, …) is not in `arrayHandlers`, so the proxy returns the
`createArrayMethodWrapper` closure whose `default` case conservatively
notifies `length` plus every index, enqueuing all dependent computations. -/
theorem C8_conservative_readonly_methods :
    (runSteps effs8 s8 [.reg 1, .iter]).notifyLog = [] ∧
    (runSteps effs8 s8 [.reg 1, .iter]).queue = [] ∧
    (runSteps effs8 s8 [.reg 1, .mapCall]).notifyLog =
      [(.obj 0, "length"), (.obj 0, "0"), (.obj 0, "1")] ∧
    (runSteps effs8 s8 [.reg 1, .mapCall, .micro]).runs = [1, 1] := by decide

/-- C9, code bug.  The claim states that the disposer removes the computation
from every dependent set and from pending-set membership, so later mutations
cause zero re-runs, and that disposing twice is a no-op.  The code cannot do
any of this: `cleanup` (state.js lines 314-320) calls
`STATE_TRACKER.forEach(…)`, but `STATE_TRACKER` is a `WeakMap` (line 5) and
`WeakMap.prototype` has no `forEach`, so every disposer call throws a
`TypeError` after deleting the effect from `EFFECT_REGISTRY` and before
removing any dependency edge.  Concretely: for `{x: 1}` with a computation
reading `x`, calling the disposer throws, and a subsequent write to `x`
re-runs the supposedly disposed computation. -/
theorem C9_code_behavior :
    (runSteps effs9 s9 [.reg 1, .disp 1, .write ["x"] (.prim 2), .micro]).disposeErrors
      = 1 ∧
    (runSteps effs9 s9 [.reg 1, .disp 1, .write ["x"] (.prim 2), .micro]).runs =
      [1, 1] ∧
    (runSteps effs9 s9 [.reg 1, .disp 1]).registry = [] ∧
    trackerGetL (runSteps effs9 s9 [.reg 1, .disp 1]).tracker (.obj 0) "x" =
      [1] := by decide

/-- C10, counterexample.  The claim states that `cleanup` removes only the
disposed computation from each key's dependent set.  After registering two
computations on `x` and disposing computation 1, computation 1 is *still* a
member of the dependent set of `(root, x)` — the disposer threw a `TypeError`
(`STATE_TRACKER` is a `WeakMap` without `forEach`) before removing anything —
refuting the stated removal at a concrete input. -/
theorem C10_counterexample :
    1 ∈ trackerGetL (runSteps effs10 s10 [.reg 1, .reg 2, .disp 1]).tracker
      (.obj 0) "x" ∧
    (runSteps effs10 s10 [.reg 1, .reg 2, .disp 1]).disposeErrors = 1 := by decide

/-- C10, amended.  Disposing one computation leaves every dependency edge —
of the other computation, and in fact of both — intact: the disposer throws
before `cleanup` can iterate the tracker, so `dispose` changes neither the
dependency graph nor the pending set; consequently, after disposing
computation 1, computation 2 still re-runs when its tracked property
changes. -/
theorem C10_dispose_preserves_other_edges :
    (∀ (s : RState) (e : EffId),
      (dispose s e).1.tracker = s.tracker ∧ (dispose s e).1.queue = s.queue) ∧
    trackerGetL (runSteps effs10 s10 [.reg 1, .reg 2, .disp 1]).tracker
      (.obj 0) "x" = [1, 2] ∧
    (runSteps effs10 s10
      [.reg 1, .reg 2, .disp 1, .write ["x"] (.prim 2), .micro]).runs =
      [1, 2, 1, 2] := by
  refine ⟨fun s e => ⟨rfl, rfl⟩, by decide, by decide⟩

end VanillaWire
